import Mathlib

/-!
Shallow embedding of the `modus` declarative data-modeling library
(`modus/field.py`, `modus/fields.py`, `modus/model.py`, `modus/exceptions.py`)
together with theorems settling the specification claims about it.

Conventions of the embedding:
* Python values flowing through fields are modelled by the inductive `PyVal`
  (`None`, `bool`, `int`, `str`, `datetime.datetime`, `list`, `dict`).
* Python exceptions are modelled by `PyExn`; a Python function that can raise
  becomes a Lean function into `Except PyExn _`.
* `datetime.datetime` instances are modelled by `DateTimeD`; the `tz` component
  is the UTC offset in minutes (`Option.none` denotes a naive datetime).
* CPython standard-library functions used by the source (`int(...)`, `str(...)`,
  `datetime.datetime(...)` construction checks, `datetime.fromtimestamp`,
  `datetime.isoformat`) are modelled from their documented behaviour, since the
  standard library is not part of the repository.
-/

namespace Modus

/-- Model of a CPython `datetime.datetime` value: calendar fields plus an
optional UTC offset in minutes (`Option.none` is a naive datetime). -/
structure DateTimeD where
  year : Nat
  month : Nat
  day : Nat
  hour : Nat
  minute : Nat
  second : Nat
  microsecond : Nat
  tz : Option Int
deriving DecidableEq, Repr

/-- Gregorian leap-year test, as used by `datetime`. -/
def isLeap (y : Nat) : Bool :=
  y % 4 == 0 && (y % 100 != 0 || y % 400 == 0)

/-- Number of days in a month of the proleptic Gregorian calendar. -/
def daysInMonth (y m : Nat) : Nat :=
  if m == 2 then (if isLeap y then 29 else 28)
  else if m == 4 || m == 6 || m == 9 || m == 11 then 30
  else 31

/-- The range checks performed by the `datetime.datetime(...)` constructor;
`DateTime.parse` catches the constructor's exception and turns it into a
`SerializationError`. -/
def validDT (d : DateTimeD) : Bool :=
  decide (1 ≤ d.year) && decide (d.year ≤ 9999) &&
  decide (1 ≤ d.month) && decide (d.month ≤ 12) &&
  decide (1 ≤ d.day) && decide (d.day ≤ daysInMonth d.year d.month) &&
  decide (d.hour ≤ 23) && decide (d.minute ≤ 59) && decide (d.second ≤ 59) &&
  decide (d.microsecond ≤ 999999)

/-- Days since 1970-01-01 of a proleptic Gregorian date
(standard civil-from-days conversion, floor division). -/
def daysFromCivil (y m d : Int) : Int :=
  let y' := if m ≤ 2 then y - 1 else y
  let era := Int.fdiv y' 400
  let yoe := y' - era * 400
  let mp := if m > 2 then m - 3 else m + 9
  let doy := Int.fdiv (153 * mp + 2) 5 + d - 1
  let doe := yoe * 365 + Int.fdiv yoe 4 - Int.fdiv yoe 100 + doy
  era * 146097 + doe - 719468

/-- Inverse of `daysFromCivil`: the proleptic Gregorian date of a day count
relative to 1970-01-01. -/
def civilFromDays (z : Int) : Int × Int × Int :=
  let z' := z + 719468
  let era := Int.fdiv z' 146097
  let doe := z' - era * 146097
  let yoe := Int.fdiv (doe - Int.fdiv doe 1460 + Int.fdiv doe 36524 - Int.fdiv doe 146096) 365
  let y := yoe + era * 400
  let doy := doe - (365 * yoe + Int.fdiv yoe 4 - Int.fdiv yoe 100)
  let mp := Int.fdiv (5 * doy + 2) 153
  let d := doy - Int.fdiv (153 * mp + 2) 5 + 1
  let m := if mp < 10 then mp + 3 else mp - 9
  (if m ≤ 2 then y + 1 else y, m, d)

/-- Microseconds since the epoch of a datetime interpreted at UTC offset
`off` minutes (used to compare aware datetimes, as Python `==` does). -/
def toUtcMicroseconds (d : DateTimeD) (off : Int) : Int :=
  ((daysFromCivil d.year d.month d.day) * 86400
    + d.hour * 3600 + d.minute * 60 + d.second - off * 60) * 1000000
    + d.microsecond

/-- Python `==` on `datetime.datetime`: naive values compare field-wise, aware
values compare as absolute instants, and a naive/aware mix is unequal. -/
def dtEqb (a b : DateTimeD) : Bool :=
  match a.tz, b.tz with
  | Option.none, Option.none => a == b
  | some x, some y => toUtcMicroseconds a x == toUtcMicroseconds b y
  | _, _ => false

/-- Model of `datetime.datetime.fromtimestamp(ts)` (no `tz` argument): a naive
datetime holding the local civil time of the instant; the platform-local
timezone is modelled as a fixed offset of `localOffsetMinutes` minutes. -/
def fromtimestamp (ts : Int) (localOffsetMinutes : Int) : DateTimeD :=
  let total := ts + localOffsetMinutes * 60
  let days := Int.fdiv total 86400
  let secs := (Int.fmod total 86400).toNat
  let (y, m, d) := civilFromDays days
  { year := y.toNat, month := m.toNat, day := d.toNat,
    hour := secs / 3600, minute := secs / 60 % 60, second := secs % 60,
    microsecond := 0, tz := Option.none }

/-- Model of the loosely-typed Python values handled by the library. -/
inductive PyVal where
  | none
  | bool (b : Bool)
  | int (n : Int)
  | str (s : String)
  | dt (d : DateTimeD)
  | list (xs : List PyVal)
  | dict (entries : List (String × PyVal))

/-- Association-list lookup used to model Python `dict` access by string key. -/
def lookupStr (entries : List (String × α)) (k : String) : Option α :=
  match entries with
  | [] => Option.none
  | (k', v) :: rest => if k' == k then some v else lookupStr rest k

mutual

/-- Python `==` on the modelled values (`True == 1` holds, datetimes compare
per `dtEqb`).  Dicts are compared entry-wise in order — an approximation of
Python's order-insensitive dict equality that no claim exercises. -/
def pyEqb : PyVal → PyVal → Bool
  | .none, .none => true
  | .bool a, .bool b => a == b
  | .bool a, .int b => (if a then (1 : Int) else 0) == b
  | .int a, .bool b => a == (if b then (1 : Int) else 0)
  | .int a, .int b => a == b
  | .str a, .str b => a == b
  | .dt a, .dt b => dtEqb a b
  | .list a, .list b => pyListEqb a b
  | .dict a, .dict b => pyPairsEqb a b
  | _, _ => false

/-- Element-wise Python `==` on lists. -/
def pyListEqb : List PyVal → List PyVal → Bool
  | [], [] => true
  | a :: as', b :: bs' => pyEqb a b && pyListEqb as' bs'
  | _, _ => false

/-- Entry-wise comparison of dict entries (keys and values). -/
def pyPairsEqb : List (String × PyVal) → List (String × PyVal) → Bool
  | [], [] => true
  | (k, v) :: rest, (k', w) :: rest' => k == k' && pyEqb v w && pyPairsEqb rest rest'
  | _, _ => false

end

/-- Model of the Python exceptions raised by the library
(`modus/exceptions.py`) plus the builtin exceptions its code can hit. -/
inductive ErrTree where
  | msgs (l : List String)
  | nested (m : List (String × ErrTree))

/-- Exception vocabulary: `FieldValidationError` carries a message list and a
`stop_validation` flag, `ModelValidationError` carries a per-field mapping,
`SerializationError` is the spec's `SchemaError`; `nameError`/`typeError`
model the corresponding Python builtins. -/
inductive PyExn where
  | fieldValidationError (errors : List String) (stop_validation : Bool)
  | stopValidationSignal
  | modelValidationError (errors : List (String × ErrTree))
  | serializationError (error : String)
  | nameError (n : String)
  | typeError
  | attributeError

/-- Model of Python `int(value)` coercion on the modelled values: succeeds on
ints, bools and decimal strings (optionally signed, surrounding spaces
stripped), fails (`TypeError`/`ValueError`) otherwise. -/
def pyIntCoerce (v : PyVal) : Option Int :=
  match v with
  | .int n => some n
  | .bool b => some (if b then 1 else 0)
  | .str s =>
    let cs := (s.toList.dropWhile (· == ' ')).reverse.dropWhile (· == ' ') |>.reverse
    let (sign, digits) :=
      match cs with
      | '-' :: rest => ((-1 : Int), rest)
      | '+' :: rest => ((1 : Int), rest)
      | rest => ((1 : Int), rest)
    if !digits.isEmpty && digits.all (fun c => decide (48 ≤ c.toNat) && decide (c.toNat ≤ 57)) then
      some (sign * Int.ofNat (digits.foldl (fun acc c => acc * 10 + (c.toNat - 48)) (0 : Nat)))
    else
      Option.none
  | _ => Option.none

/-- Model of Python `str(value)` on the modelled values (only the cases the
claims exercise are rendered faithfully). -/
def pyStr (v : PyVal) : String :=
  match v with
  | .str s => s
  | .int n => toString n
  | .bool b => if b then "True" else "False"
  | .none => "None"
  | _ => "object"

/-- Python `bit_length` of an integer (of its absolute value, as CPython does). -/
def bitLength (n : Int) : Nat :=
  if n = 0 then 0 else Nat.log2 n.natAbs + 1

/-! ## The Field contract (`modus/field.py`)

A validator step is a Python callable applied to the value; it either returns
normally or raises.  `Field.validate` runs the field's ordered validator list
with an error accumulator (field.py:55-71). -/

/-- A single validator step bound to its field (the `functools.partial(v, self)`
closures of fields.py:19). -/
abbrev Validator := PyVal → Except PyExn Unit

/-- The `for validator in self.validators` loop of `Field.validate`
(field.py:58-66): collect `e.errors` of every caught `FieldValidationError`,
break on `stop_validation` or on a `StopValidation` signal, re-raise anything
else. -/
def validateLoop (validators : List Validator) (value : PyVal)
    (errors : List String) : Except PyExn (List String) :=
  match validators with
  | [] => .ok errors
  | f :: rest =>
    match f value with
    | .ok _ => validateLoop rest value errors
    | .error (.fieldValidationError errs stop) =>
      if stop then .ok (errors ++ errs) else validateLoop rest value (errors ++ errs)
    | .error .stopValidationSignal => .ok errors
    | .error e => .error e

/-- `Field.validate` (field.py:55-71): run the loop starting from an empty
error list; afterwards raise one aggregated `FieldValidationError` if any
messages were collected, else return `True`. -/
def Field.validate (validators : List Validator) (value : PyVal) :
    Except PyExn Bool :=
  match validateLoop validators value [] with
  | .ok errors =>
    if errors.isEmpty then .ok true else .error (.fieldValidationError errors false)
  | .error e => .error e

/-- Restatement of the chain semantics in the spec's words (spec section 4.2):
the messages collected by the chain are those of every non-stopping
`FieldError` up to and including the first stop-chain `FieldError`, with
collection cut short by a `ChainAbort`/`StopValidation` signal. -/
def specCollected (validators : List Validator) (value : PyVal) :
    Except PyExn (List String) :=
  match validators with
  | [] => .ok []
  | f :: rest =>
    match f value with
    | .ok _ => specCollected rest value
    | .error (.fieldValidationError errs true) => .ok errs
    | .error (.fieldValidationError errs false) =>
      (specCollected rest value).map (errs ++ ·)
    | .error .stopValidationSignal => .ok []
    | .error e => .error e

/-- The spec's description of `validate`: raise one aggregated `FieldError`
holding exactly the collected messages if any were collected, succeed
otherwise. -/
def Field.validateSpec (validators : List Validator) (value : PyVal) :
    Except PyExn Bool :=
  match specCollected validators value with
  | .ok [] => .ok true
  | .ok errs => .error (.fieldValidationError errs false)
  | .error e => .error e

/-! ## The built-in field kinds (`modus/fields.py`)

Each kind's constraint checks are `@Field.validator`-decorated methods; the
metaclass `MetaField` assembles each class's `_validators` list as the
deep-copied base-class list followed by the class's own declarations in
definition order (field.py:6-30), and `BaseField.__init__` binds them to the
field instance (fields.py:19-21).  The per-kind `classValidators` definitions
below mirror that assembly as explicit list appends. -/

/-- Error message `BaseField.ERRORS['required']` (fields.py:12). -/
def requiredMsg : String := "This field is required"

/-- Python `repr` of a value, as interpolated into formatted messages. -/
def pyRepr (v : PyVal) : String :=
  match v with
  | .str s => "\x27" ++ s ++ "\x27"
  | _ => pyStr v

/-- Python `str` of a list of values (as `"{0}".format(self.choices)` renders). -/
def pyListRepr (vs : List PyVal) : String :=
  "[" ++ String.intercalate ", " (vs.map pyRepr) ++ "]"

/-- The formatted `BaseField.ERRORS['choices']` message (fields.py:13,40). -/
def choicesMsg (choices : List PyVal) : String :=
  "Should be one of \x22" ++ pyListRepr choices ++ "\x22"

/-- `BaseField.validate_required` (fields.py:27-34): a null value raises a
stop-chain error when required and a `StopValidation` signal otherwise. -/
def BaseField.validate_required (required : Bool) : Validator := fun value =>
  match value with
  | .none =>
    if required then .error (.fieldValidationError [requiredMsg] true)
    else .error .stopValidationSignal
  | _ => .ok ()

/-- `BaseField.validate_choices` (fields.py:36-41): when choices are
configured, a non-member raises a stop-chain error. -/
def BaseField.validate_choices (choices : Option (List PyVal)) : Validator := fun value =>
  match choices with
  | Option.none => .ok ()
  | some cs =>
    if cs.any (fun c => pyEqb value c) then .ok ()
    else .error (.fieldValidationError [choicesMsg cs] true)

/-- Configuration shared by every `BaseField` (fields.py:15-18). -/
structure BaseCfg where
  required : Bool
  choices : Option (List PyVal)

/-- `BaseField._validators` as assembled by `MetaField` (field.py:22-28):
the class declares `validate_required` then `validate_choices`. -/
def BaseField.classValidators (cfg : BaseCfg) : List Validator :=
  [BaseField.validate_required cfg.required, BaseField.validate_choices cfg.choices]

/-- `Field.serialize` / `Field.deserialize` of the base contract and of `Any`
(field.py:44-48, fields.py:44-49): the identity. -/
def Any.deserialize (v : PyVal) : Except PyExn PyVal := .ok v

/-- `Any.serialize` (fields.py:45-46): the identity. -/
def Any.serialize (v : PyVal) : PyVal := v

/-- `Integer.ERRORS['not_integer']` (fields.py:54). -/
def Integer.notIntegerMsg : String := "This is not an integer"

/-- The formatted `Integer.ERRORS['min']` message (fields.py:55,86). -/
def Integer.minMsg (v : PyVal) (m : Int) : String :=
  pyStr v ++ " should be greater than " ++ toString m

/-- The formatted `Integer.ERRORS['max']` message (fields.py:56,95). -/
def Integer.maxMsg (v : PyVal) (m : Int) : String :=
  pyStr v ++ " should be lower than " ++ toString m

/-- `Integer`-specific configuration (fields.py:58-60). -/
structure IntegerCfg extends BaseCfg where
  min : Option Int
  max : Option Int

/-- `Integer.deserialize` (fields.py:65-70): `int(value)`, raising
`SerializationError` when the coercion raises. -/
def Integer.deserialize (v : PyVal) : Except PyExn PyVal :=
  match pyIntCoerce v with
  | some n => .ok (.int n)
  | Option.none => .error (.serializationError Integer.notIntegerMsg)

/-- `Integer.serialize` (fields.py:62-63): the identity. -/
def Integer.serialize (v : PyVal) : PyVal := v

/-- `Integer.is_integer` (fields.py:72-78): stop-chain error when `int(value)`
raises. -/
def Integer.is_integer : Validator := fun value =>
  match pyIntCoerce value with
  | some _ => .ok ()
  | Option.none => .error (.fieldValidationError [Integer.notIntegerMsg] true)

/-- `Integer.validate_min` (fields.py:80-87); Python `value < self.min` is
defined for ints and bools and raises `TypeError` otherwise. -/
def Integer.validate_min (min : Option Int) : Validator := fun value =>
  match min with
  | Option.none => .ok ()
  | some m =>
    match value with
    | .int n => if n < m then .error (.fieldValidationError [Integer.minMsg value m] false) else .ok ()
    | .bool b =>
      if (if b then (1 : Int) else 0) < m then
        .error (.fieldValidationError [Integer.minMsg value m] false)
      else .ok ()
    | _ => .error .typeError

/-- `Integer.validate_max` (fields.py:89-96). -/
def Integer.validate_max (max : Option Int) : Validator := fun value =>
  match max with
  | Option.none => .ok ()
  | some m =>
    match value with
    | .int n => if n > m then .error (.fieldValidationError [Integer.maxMsg value m] false) else .ok ()
    | .bool b =>
      if (if b then (1 : Int) else 0) > m then
        .error (.fieldValidationError [Integer.maxMsg value m] false)
      else .ok ()
    | _ => .error .typeError

/-- `Integer._validators`: the inherited `BaseField` chain followed by the
class's own declarations in definition order (field.py:11-28). -/
def Integer.classValidators (cfg : IntegerCfg) : List Validator :=
  BaseField.classValidators cfg.toBaseCfg
    ++ [Integer.is_integer, Integer.validate_min cfg.min, Integer.validate_max cfg.max]

/-- `Boolean.ERRORS['not_boolean']` (fields.py:101). -/
def Boolean.notBooleanMsg : String := "This is not a valid boolean"

/-- `Boolean.deserialize` (fields.py:103-107): `SerializationError` unless the
value is `bool`-typed. -/
def Boolean.deserialize (v : PyVal) : Except PyExn PyVal :=
  match v with
  | .bool b => .ok (.bool b)
  | _ => .error (.serializationError Boolean.notBooleanMsg)

/-- `Boolean.is_boolean` (fields.py:109-113): non-stopping error unless
`bool`-typed. -/
def Boolean.is_boolean : Validator := fun value =>
  match value with
  | .bool _ => .ok ()
  | _ => .error (.fieldValidationError [Boolean.notBooleanMsg] false)

/-- `Boolean._validators`. -/
def Boolean.classValidators (cfg : BaseCfg) : List Validator :=
  BaseField.classValidators cfg ++ [Boolean.is_boolean]

/-- `Snowflake.ERRORS['not_snowflake']` (fields.py:118). -/
def Snowflake.notSnowflakeMsg : String := "This is not a snowflake id"

/-- `Snowflake.deserialize` (fields.py:120-131): `int(value)` with a 64-bit
`bit_length` bound. -/
def Snowflake.deserialize (v : PyVal) : Except PyExn PyVal :=
  match pyIntCoerce v with
  | some n =>
    if bitLength n > 64 then .error (.serializationError Snowflake.notSnowflakeMsg)
    else .ok (.int n)
  | Option.none => .error (.serializationError Snowflake.notSnowflakeMsg)

/-- `Snowflake.serialize` (fields.py:133-137): stringify non-null values. -/
def Snowflake.serialize (v : PyVal) : PyVal :=
  match v with
  | .none => .none
  | _ => .str (pyStr v)

/-- `String`-specific configuration (fields.py:160-166); the compiled regex is
modelled as an abstract anchored matcher. -/
structure StringCfg extends BaseCfg where
  convert : Bool
  min_length : Int
  max_length : Int
  length : Int
  regex : Option (String → Bool)

/-- The formatted `String.ERRORS['not_string']` message (fields.py:154,181). -/
def String.notStringMsg (v : PyVal) : String :=
  "This (" ++ pyStr v ++ ") is not a string"

/-- `String.deserialize` (fields.py:179-184): `SerializationError` when the
value is not a string and `convert` is off; `str(value)` otherwise. -/
def StringField.deserialize (convert : Bool) (v : PyVal) : Except PyExn PyVal :=
  match v with
  | .str s => .ok (.str s)
  | _ =>
    if convert then .ok (.str (pyStr v))
    else .error (.serializationError (String.notStringMsg v))

/-- `List.deserialize` (fields.py:252-256): null maps to the empty list, a
list maps element-wise through the element field.  (Python would iterate any
iterable; other inputs are not exercised by the claims and are modelled as
`TypeError`, which non-iterables raise.) -/
def ListField.deserialize (elemDe : PyVal → Except PyExn PyVal) (v : PyVal) :
    Except PyExn PyVal :=
  match v with
  | .none => .ok (.list [])
  | .list xs => (xs.mapM elemDe).map .list
  | _ => .error .typeError

/-- `List.serialize` (fields.py:258-262). -/
def ListField.serialize (elemSer : PyVal → PyVal) (v : PyVal) : PyVal :=
  match v with
  | .none => .list []
  | .list xs => .list (xs.map elemSer)
  | _ => v

/-- `Dict.deserialize` (fields.py:301-309).  The null branch returns the name
`dct`, which is bound nowhere in the function's scope, so at runtime Python
raises `NameError` there.  Keys are modelled as strings. -/
def DictField.deserialize (elemDe : PyVal → Except PyExn PyVal)
    (keyFn : PyVal → Except PyExn String) (v : PyVal) : Except PyExn PyVal :=
  match v with
  | .none => .error (.nameError "dct")
  | .dict entries =>
    (entries.mapM (fun kv => (elemDe kv.2).map (fun w => (kv.1, w)))).map .dict
  | .list xs => do
    let lst ← xs.mapM elemDe
    let keyed ← lst.mapM (fun e => (keyFn e).map (fun k => (k, e)))
    .ok (.dict keyed)
  | _ => .error .typeError

/-- `ModelField.deserialize` (fields.py:337-343): null and already-an-instance
values pass through, anything else is recursively deserialized into a new
nested-model instance (`isInst` models `isinstance(value, self.model)` and
`modelDe` the nested `self.model(**value)` construction). -/
def ModelField.deserialize (isInst : PyVal → Bool)
    (modelDe : PyVal → Except PyExn PyVal) (v : PyVal) : Except PyExn PyVal :=
  match v with
  | .none => .ok .none
  | w => if isInst w then .ok w else modelDe w

/-! ## DateTime (fields.py:359-469)

`ISO8601_REGEX` (fields.py:359-400) is embedded as a recursive-descent
matcher with the same alternation order and backtracking as the regex engine:
every quantified/alternated piece produces its candidate splits in the order
the engine would try them (`{1,2}` greedy, `{0,1}` present-first,
alternatives left to right), and the continuation picks the first candidate
for which the rest of the pattern — anchored by the trailing `$` — matches. -/

/-- ASCII digit test for the regex character class `[0-9]`. -/
def isDigitC (c : Char) : Bool := decide (48 ≤ c.toNat) && decide (c.toNat ≤ 57)

/-- Numeric value of an ASCII digit. -/
def digVal (c : Char) : Nat := c.toNat - 48

/-- Exactly two digits (`[0-9]{2}`). -/
def digits2 : List Char → Option (Nat × List Char)
  | a :: b :: r =>
    if isDigitC a && isDigitC b then some (digVal a * 10 + digVal b, r) else Option.none
  | _ => Option.none

/-- Exactly four digits (`[0-9]{4}`, the year). -/
def digits4 : List Char → Option (Nat × List Char)
  | a :: b :: c :: d :: r =>
    if isDigitC a && isDigitC b && isDigitC c && isDigitC d then
      some (((digVal a * 10 + digVal b) * 10 + digVal c) * 10 + digVal d, r)
    else Option.none
  | _ => Option.none

/-- Greedy `[0-9]{1,2}`: the two-digit candidate before the one-digit one. -/
def digits1or2 : List Char → List (Nat × List Char)
  | a :: b :: r =>
    if isDigitC a then
      (if isDigitC b then [(digVal a * 10 + digVal b, r)] else []) ++ [(digVal a, b :: r)]
    else []
  | [a] => if isDigitC a then [(digVal a, [])] else []
  | [] => []

/-- Pick the first candidate whose continuation matches (regex backtracking). -/
def firstSome (cands : List α) (k : α → Option β) : Option β :=
  match cands with
  | [] => Option.none
  | x :: xs => match k x with | some b => some b | Option.none => firstSome xs k

/-- Maximal run of digits (for the greedy `[0-9]+` of the fraction). -/
def takeDigits : List Char → (List Char × List Char)
  | [] => ([], [])
  | c :: r =>
    if isDigitC c then
      let (ds, rest) := takeDigits r
      (c :: ds, rest)
    else ([], c :: r)

/-- Numeric value of a digit run. -/
def digitsVal (ds : List Char) : Nat :=
  ds.foldl (fun acc c => acc * 10 + digVal c) 0

/-- The named capture groups the Python code reads out of a match.  A fraction
is kept as (value, digit count) so that the `Decimal`-based scaling of
fields.py:435 can be computed.  The regex also captures `separator` and the
timezone pieces, but `DateTime.parse` never reads those groups. -/
structure IsoGroups where
  year : Nat
  monthdash : Option Nat
  month : Option Nat
  daydash : Option Nat
  day : Option Nat
  hour : Option Nat
  minute : Option Nat
  second : Option Nat
  second_fraction : Option (Nat × Nat)
deriving DecidableEq, Repr

/-- Fresh group record with only the year set. -/
def IsoGroups.base (y : Nat) : IsoGroups :=
  { year := y, monthdash := Option.none, month := Option.none,
    daydash := Option.none, day := Option.none, hour := Option.none,
    minute := Option.none, second := Option.none, second_fraction := Option.none }

/-- The matched time-of-day groups. -/
structure TimeGroups where
  hour : Nat
  minute : Option Nat
  second : Option Nat
  second_fraction : Option (Nat × Nat)
deriving DecidableEq, Repr

/-- Candidates of `:{0,1}(?P<minute>[0-9]{2})` (colon-present first). -/
def colonDigits2 (cs : List Char) : List (Nat × List Char) :=
  (match cs with
   | ':' :: r => (digits2 r).toList
   | _ => []) ++ (digits2 cs).toList

/-- Candidates of `:{0,1}(?P<second>[0-9]{1,2})`. -/
def colonDigits12 (cs : List Char) : List (Nat × List Char) :=
  (match cs with
   | ':' :: r => digits1or2 r
   | _ => []) ++ digits1or2 cs

/-- Candidates of `([.,](?P<second_fraction>[0-9]+))`, longest run first. -/
def fracCands (cs : List Char) : List ((Nat × Nat) × List Char) :=
  match cs with
  | c :: r =>
    if c == '.' || c == ',' then
      let (ds, rest) := takeDigits r
      (List.range ds.length).map (fun i =>
        let k := ds.length - i
        ((digitsVal (ds.take k), k), ds.drop k ++ rest))
    else []
  | [] => []

/-- Candidates of the second-plus-fraction group
`(:{0,1}(?P<second>[0-9]{1,2})([.,](?P<second_fraction>[0-9]+)){0,1})`. -/
def secondCands (cs : List Char) :
    List ((Option Nat × Option (Nat × Nat)) × List Char) :=
  ((colonDigits12 cs).map (fun sv =>
    (fracCands sv.2).map (fun fr => ((some sv.1, some fr.1), fr.2))
      ++ [((some sv.1, Option.none), sv.2)])).flatten

/-- Candidates of the timezone group
`(Z|((?P<tz_sign>[-+])(?P<tz_hour>[0-9]{2}):{0,1}(?P<tz_minute>[0-9]{2}){0,1}))`
— only the consumed remainder matters, since `parse` never reads these groups. -/
def tzCands (cs : List Char) : List (List Char) :=
  match cs with
  | 'Z' :: r => [r]
  | c :: r =>
    if c == '+' || c == '-' then
      match digits2 r with
      | some (_, r2) =>
        (match r2 with
         | ':' :: r3 =>
           (match digits2 r3 with
            | some (_, r4) => [r4]
            | Option.none => []) ++ [r3]
         | _ => []) ++
        (match digits2 r2 with
         | some (_, r4) => [r4]
         | Option.none => []) ++ [r2]
      | Option.none => Option.toList Option.none
    else []
  | [] => []

/-- After the two hour digits: optional minute, optional second (with optional
fraction), optional timezone, then the anchoring `$`. -/
def parseTimeTail (h : Nat) (cs : List Char) : Option TimeGroups :=
  firstSome ((colonDigits2 cs).map (fun x => (some x.1, x.2)) ++ [(Option.none, cs)])
    fun mi =>
  firstSome (secondCands mi.2 ++ [((Option.none, Option.none), mi.2)]) fun sf =>
  firstSome (tzCands sf.2 ++ [sf.2]) fun r3 =>
  if r3 == [] then
    some { hour := h, minute := mi.1, second := sf.1.1, second_fraction := sf.1.2 }
  else Option.none

/-- The time part `(?P<separator>[ T])(?P<hour>[0-9]{2})...` (including the
trailing `$`). -/
def parseTime (cs : List Char) : Option TimeGroups :=
  match cs with
  | c :: r =>
    if c == ' ' || c == 'T' then
      match digits2 r with
      | some hv => parseTimeTail hv.1 hv.2
      | Option.none => Option.none
    else Option.none
  | [] => Option.none

/-- Optional time part followed by `$`. -/
def parseAfterDay (cs : List Char) : Option (Option TimeGroups) :=
  match parseTime cs with
  | some t => some (some t)
  | Option.none => if cs == [] then some Option.none else Option.none

/-- Candidates of `((-(?P<daydash>[0-9]{1,2}))|(?P<day>[0-9]{2}))`
(`true` marks the dashed group, tried first). -/
def dayCands (cs : List Char) : List ((Bool × Nat) × List Char) :=
  (match cs with
   | '-' :: r => (digits1or2 r).map (fun x => ((true, x.1), x.2))
   | _ => []) ++
  (match digits2 cs with
   | some (d, r) => [((false, d), r)]
   | Option.none => [])

/-- Optional day group (with its optional time part) followed by `$`. -/
def parseAfterMonth (cs : List Char) :
    Option (Option ((Bool × Nat) × Option TimeGroups)) :=
  match firstSome (dayCands cs) (fun dv => (parseAfterDay dv.2).map (fun t => (dv.1, t))) with
  | some x => some (some x)
  | Option.none => if cs == [] then some Option.none else Option.none

/-- Candidates of `((-(?P<monthdash>[0-9]{1,2}))|(?P<month>[0-9]{2})(?!$))`
(`true` marks the dashed group; the bare month carries the don't-allow-YYYYMM
lookahead). -/
def monthCands (cs : List Char) : List ((Bool × Nat) × List Char) :=
  (match cs with
   | '-' :: r => (digits1or2 r).map (fun x => ((true, x.1), x.2))
   | _ => []) ++
  (match digits2 cs with
   | some (m, r) => if r == [] then [] else [((false, m), r)]
   | Option.none => [])

/-- Optional month group (with everything after it) followed by `$`. -/
def parseAfterYear (cs : List Char) :
    Option (Option ((Bool × Nat) × Option ((Bool × Nat) × Option TimeGroups))) :=
  match firstSome (monthCands cs) (fun mv => (parseAfterMonth mv.2).map (fun d => (mv.1, d))) with
  | some x => some (some x)
  | Option.none => if cs == [] then some Option.none else Option.none

/-- `ISO8601_REGEX.match(datestring)` with its group dictionary. -/
def isoMatch (cs : List Char) : Option IsoGroups :=
  match digits4 cs with
  | Option.none => Option.none
  | some (y, r) =>
    (parseAfterYear r).map (fun mrest =>
      match mrest with
      | Option.none => IsoGroups.base y
      | some (mv, drest) =>
        let g1 := if mv.1 then { IsoGroups.base y with monthdash := some mv.2 }
                  else { IsoGroups.base y with month := some mv.2 }
        match drest with
        | Option.none => g1
        | some (dv, trest) =>
          let g2 := if dv.1 then { g1 with daydash := some dv.2 }
                    else { g1 with day := some dv.2 }
          match trest with
          | Option.none => g2
          | some tg =>
            { g2 with hour := some tg.hour, minute := tg.minute, second := tg.second,
                      second_fraction := tg.second_fraction })

/-- `DateTime.MESSAGES['unknown_format']` (fields.py:405). -/
def DateTime.unknownFormatMsg : String :=
  "Unknown format (supported format: ISO8601)"

/-- `DateTime.MESSAGES['unknown_type']` (fields.py:404); assembled by the
class but never raised by the final code. -/
def DateTime.unknownTypeMsg : String :=
  "Unknown type (supported types: str (ISO8601), int (timestamp))"

/-- `DateTime.parse` (fields.py:423-449).  No match raises
`SerializationError`; otherwise the groups are converted with `to_int`
(fields.py:413-421; a captured group string is always non-empty, hence truthy,
so `d.get(key) or default` is exactly option-getD), the fraction is scaled to
microseconds by truncation (fields.py:435), and the `datetime.datetime`
constructor is called with `tzinfo=tz` where `tz` was set unconditionally to
`datetime.timezone.utc` at fields.py:433 — the captured timezone-offset groups
are never consulted.  A constructor failure (out-of-range field) is caught and
re-raised as `SerializationError`. -/
def DateTime.parse (s : String) : Except PyExn DateTimeD :=
  match isoMatch s.toList with
  | Option.none => .error (.serializationError DateTime.unknownFormatMsg)
  | some g =>
    let frac : Nat :=
      match g.second_fraction with
      | Option.none => 0
      | some vl => vl.1 * 1000000 / 10 ^ vl.2
    let month :=
      match g.month with
      | some m => m
      | Option.none => match g.monthdash with | some m => m | Option.none => 1
    let day :=
      match g.day with
      | some d => d
      | Option.none => match g.daydash with | some d => d | Option.none => 1
    let d : DateTimeD :=
      { year := g.year, month := month, day := day,
        hour := g.hour.getD 0, minute := g.minute.getD 0, second := g.second.getD 0,
        microsecond := frac, tz := some 0 }
    if validDT d then .ok d else .error (.serializationError DateTime.unknownFormatMsg)

/-- Python truthiness of the modelled values. -/
def pyTruthy : PyVal → Bool
  | .none => false
  | .bool b => b
  | .int n => n != 0
  | .str s => !s.isEmpty
  | .dt _ => true
  | .list xs => !xs.isEmpty
  | .dict e => !e.isEmpty

/-- An ASCII digit character. -/
def digitChar (n : Nat) : Char := Char.ofNat (48 + n)

/-- Two-digit zero-padded decimal rendering. -/
def pad2 (n : Nat) : List Char := [digitChar (n / 10 % 10), digitChar (n % 10)]

/-- Four-digit zero-padded decimal rendering. -/
def pad4 (n : Nat) : List Char :=
  [digitChar (n / 1000 % 10), digitChar (n / 100 % 10), digitChar (n / 10 % 10), digitChar (n % 10)]

/-- Six-digit zero-padded decimal rendering (microseconds). -/
def pad6 (n : Nat) : List Char :=
  [digitChar (n / 100000 % 10), digitChar (n / 10000 % 10), digitChar (n / 1000 % 10),
   digitChar (n / 100 % 10), digitChar (n / 10 % 10), digitChar (n % 10)]

/-- The UTC-offset suffix of CPython `datetime.isoformat` (empty for naive
values, signed `HH:MM` otherwise; our offsets are whole minutes). -/
def tzSuffix : Option Int → List Char
  | Option.none => []
  | some off =>
    if off < 0 then '-' :: (pad2 ((-off).toNat / 60) ++ ':' :: pad2 ((-off).toNat % 60))
    else '+' :: (pad2 (off.toNat / 60) ++ ':' :: pad2 (off.toNat % 60))

/-- Characters of CPython `datetime.isoformat()`: date, `T`, time, a
`.ffffff` fraction only when the microsecond is nonzero, then the offset. -/
def isoformatChars (d : DateTimeD) : List Char :=
  pad4 d.year ++ '-' :: pad2 d.month ++ '-' :: pad2 d.day
    ++ 'T' :: pad2 d.hour ++ ':' :: pad2 d.minute ++ ':' :: pad2 d.second
    ++ (if d.microsecond == 0 then [] else '.' :: pad6 d.microsecond)
    ++ tzSuffix d.tz

/-- CPython `datetime.isoformat()`. -/
def isoformat (d : DateTimeD) : String := String.mk (isoformatChars d)

/-- `DateTime.serialize` (fields.py:451-454): `value.isoformat()` for truthy
values (datetimes are always truthy), `None` otherwise. -/
def DateTime.serialize (v : PyVal) : Except PyExn PyVal :=
  if pyTruthy v then
    match v with
    | .dt d => .ok (.str (isoformat d))
    | _ => .error .attributeError
  else .ok .none

/-- `DateTime.deserialize` (fields.py:456-469): null and datetimes pass
through, strings are parsed, ints go through
`datetime.datetime.fromtimestamp` (which yields a naive local-time value),
anything else — including `bool`, whose exact type is not `int` — raises
`SerializationError`. -/
def DateTime.deserialize (localOffsetMinutes : Int) (v : PyVal) :
    Except PyExn PyVal :=
  match v with
  | .none => .ok .none
  | .dt d => .ok (.dt d)
  | .str s => (DateTime.parse s).map .dt
  | .int n => .ok (.dt (fromtimestamp n localOffsetMinutes))
  | _ => .error (.serializationError DateTime.unknownFormatMsg)

/-! ## Model composition (`modus/model.py`)

`Model.deserialize` (model.py:46-58) reads one raw value per schema field,
substitutes the field's `default` when the value is `None` (every `BaseField`
instance has a `default` attribute, so the `hasattr` guard always holds),
invoking it when callable, deserializes non-`None` values through the field
and assigns the result.  Because default producers may read ambient state
(e.g. the current time), the embedding threads an abstract `World` value into
each call; a producer is a function of that world. -/

/-- An abstract snapshot of the ambient state a zero-argument default producer
may consult (e.g. the current time). -/
abbrev World := Nat

/-- A field's `default` attribute: a plain value, or a callable producer
invoked at each use (`callable(field.default)` decides which, model.py:51). -/
inductive PyDefault where
  | value (v : PyVal)
  | producer (f : World → PyVal)

/-- `DateTime.__init__` (fields.py:408-411): `now=True` evaluates
`datetime.datetime.utcnow()` once, at field-construction time, and stores the
resulting plain (non-callable) datetime as the field's `default`; otherwise
the passed-in default is kept. -/
def DateTime.initDefault (now : Bool) (constructionNow : DateTimeD)
    (default : PyDefault) : PyDefault :=
  if now then .value (.dt constructionNow) else default

/-- The per-field behaviour `Model`'s lifecycle methods invoke dynamically. -/
structure FieldD where
  deserialize : PyVal → Except PyExn PyVal
  default : PyDefault
  validate : PyVal → Except PyExn Bool
  serialize : PyVal → Except PyExn PyVal

/-- Python `data.get(field.name)` (model.py:49): `None` both when the key is
absent and when it maps to `None`. -/
def dictGet (data : List (String × PyVal)) (name : String) : PyVal :=
  (lookupStr data name).getD .none

/-- The body of `Model.deserialize`'s per-field loop (model.py:48-57): read
the raw value, substitute the default when the value is `None` (invoking a
callable default), deserialize non-`None` values, and produce the assigned
attribute value. -/
def Model.deserializeField (field : FieldD) (data : List (String × PyVal))
    (name : String) (w : World) : Except PyExn PyVal :=
  let value := dictGet data name
  let value :=
    match value with
    | .none =>
      (match field.default with
       | .value v => v
       | .producer f => f w)
    | v => v
  match value with
  | .none => .ok .none
  | v => field.deserialize v

/-- `Model.deserialize` (model.py:46-58): process the schema fields in order,
assigning each field's value onto the instance; an exception from any field's
deserialize propagates at once. -/
def Model.deserialize (fields : List (String × FieldD))
    (data : List (String × PyVal)) (w : World) :
    Except PyExn (List (String × PyVal)) :=
  match fields with
  | [] => .ok []
  | (name, field) :: rest => do
    let v ← Model.deserializeField field data name w
    let tail ← Model.deserialize rest data w
    .ok ((name, v) :: tail)

/-- Spec-side restatement of one field's processing, following the amended
wording: the default is substituted whenever the looked-up value is null
(key absent or present-with-null); a callable default is invoked fresh with
the ambient world; a null result is assigned as-is, a non-null one goes
through the field's deserialize. -/
def Model.specField (field : FieldD) (data : List (String × PyVal))
    (name : String) (w : World) : Except PyExn PyVal :=
  let raw := dictGet data name
  let resolved :=
    match raw with
    | .none =>
      (match field.default with
       | .value v => v
       | .producer f => f w)
    | v => v
  match resolved with
  | .none => .ok .none
  | v => field.deserialize v

/-- Spec-side restatement of `Model.deserialize` as a monadic map over the
schema: each field contributes its processed value, and the first failing
field's exception is the overall result. -/
def Model.deserializeSpec (fields : List (String × FieldD))
    (data : List (String × PyVal)) (w : World) :
    Except PyExn (List (String × PyVal)) :=
  fields.mapM (fun nf => (Model.specField nf.2 data nf.1 w).map (fun v => (nf.1, v)))

/-- A model instance as `Model.validate` sees it: `getattr(self, field.name)`
(model.py:92) on an instance whose schema attributes were all assigned. -/
abbrev Instance := String → PyVal

/-- A model-level validator registered via the `Model.validator` decorator
(model.py:40-43), invoked on the instance. -/
abbrev ModelValidator := Instance → Except PyExn Unit

/-- The per-field loop of `Model.validate` (model.py:89-95): call each
field's `validate`, catch `FieldValidationError` and `ModelValidationError`,
record the caught exception's `errors` under the field name and continue;
any other exception propagates. -/
def Model.validateFields (fields : List (String × FieldD)) (inst : Instance)
    (acc : List (String × ErrTree)) : Except PyExn (List (String × ErrTree)) :=
  match fields with
  | [] => .ok acc
  | (name, field) :: rest =>
    match field.validate (inst name) with
    | .ok _ => Model.validateFields rest inst acc
    | .error (.fieldValidationError errs _) =>
      Model.validateFields rest inst (acc ++ [(name, .msgs errs)])
    | .error (.modelValidationError errs) =>
      Model.validateFields rest inst (acc ++ [(name, .nested errs)])
    | .error e => .error e

/-- The model-validator loop of `Model.validate` (model.py:100-101): invoke
each registered validator on the instance, in order; an exception propagates
immediately. -/
def Model.runValidators (validators : List ModelValidator) (inst : Instance) :
    Except PyExn Unit :=
  match validators with
  | [] => .ok ()
  | f :: rest => do
    let _ ← f inst
    Model.runValidators rest inst

/-- `Model.validate` (model.py:88-101): per-field validation with error
aggregation; if any errors were recorded raise `ModelValidationError` with
the per-field mapping, otherwise run the model-level validators in order. -/
def Model.validate (fields : List (String × FieldD))
    (validators : List ModelValidator) (inst : Instance) : Except PyExn Unit := do
  let validation_errors ← Model.validateFields fields inst []
  if validation_errors.isEmpty then
    Model.runValidators validators inst
  else
    .error (.modelValidationError validation_errors)

/-- The violating-field entries in the spec's words: the fields whose
`validate` raises a catchable error, each paired with that error's payload,
in schema order. -/
def Model.specViolations (fields : List (String × FieldD)) (inst : Instance) :
    List (String × ErrTree) :=
  fields.filterMap (fun nf =>
    match nf.2.validate (inst nf.1) with
    | .error (.fieldValidationError errs _) => some (nf.1, .msgs errs)
    | .error (.modelValidationError errs) => some (nf.1, .nested errs)
    | _ => Option.none)

/-- A field validate outcome `Model.validate` can catch (or success). -/
def catchableOutcome (r : Except PyExn Bool) : Prop :=
  match r with
  | .ok _ => True
  | .error (.fieldValidationError _ _) => True
  | .error (.modelValidationError _) => True
  | .error _ => False

/-- `MetaModel.__new__`'s validator collection (model.py:9-25): the deep-copied
validator lists of the bases, in base order, followed by the class's own
`is_validator`-marked attributes in declaration order. -/
def MetaModel.collectValidators (bases : List (List ModelValidator))
    (own : List ModelValidator) : List ModelValidator :=
  bases.flatten ++ own

/-! ## Schema construction and field deep-copies (`MetaModel.__new__`, model.py:6-33)

To reason about aliasing, field objects live in an explicit store (a heap of
`FieldObj` records addressed by allocation index).  `deepcopy` allocates a
fresh cell holding a copy of the source cell's contents; mutating a field's
metadata after type definition is a store write at its address. -/

/-- The mutable contents of one field instance: its assigned `name` and a
stand-in `meta` for its remaining constraint attributes. -/
structure FieldObj where
  name : Option String
  meta : Nat
deriving DecidableEq, Repr

/-- The heap of field objects; addresses are list indices. -/
abbrev Store := List FieldObj

/-- Address of a field object in the store. -/
abbrev Addr := Nat

/-- Read a field object (Python attribute access through a reference). -/
def Store.read (st : Store) (a : Addr) : FieldObj :=
  st.getD a { name := Option.none, meta := 0 }

/-- Mutate the field object at an address (e.g. reassigning its metadata). -/
def Store.write (st : Store) (a : Addr) (o : FieldObj) : Store :=
  st.set a o

/-- Allocate a fresh cell (as `deepcopy` does for each copied object). -/
def Store.alloc (st : Store) (o : FieldObj) : Store × Addr :=
  (st ++ [o], st.length)

/-- A model schema: insertion-ordered mapping from field name to the address
of the owned field object (`_fields`, model.py:27). -/
abbrev Schema := List (String × Addr)

/-- Python `dict` update/insert: replace in place when the key exists, append
otherwise. -/
def dictInsert (d : Schema) (k : String) (a : Addr) : Schema :=
  match d with
  | [] => [(k, a)]
  | (k', a') :: rest =>
    if k' == k then (k', a) :: rest else (k', a') :: dictInsert rest k a

/-- `fields.update(deepcopy(base._fields))` (model.py:13): deep-copy every
entry of a base schema into fresh cells, then merge into the accumulating
dict. -/
def MetaModel.copyBase (st : Store) (acc : Schema) (base : Schema) : Store × Schema :=
  match base with
  | [] => (st, acc)
  | (n, a) :: rest =>
    let (st1, a1) := st.alloc (st.read a)
    MetaModel.copyBase st1 (dictInsert acc n a1) rest

/-- The base-merging loop of `MetaModel.__new__` (model.py:11-13). -/
def MetaModel.copyBases (st : Store) (acc : Schema) (bases : List Schema) : Store × Schema :=
  match bases with
  | [] => (st, acc)
  | b :: rest =>
    let (st1, acc1) := MetaModel.copyBase st acc b
    MetaModel.copyBases st1 acc1 rest

/-- The declared-attribute loop of `MetaModel.__new__` (model.py:17-22): each
`Field`-valued class attribute is deep-copied, the copy's `name` is set to
the attribute name, and the copy is installed in the schema (overriding any
same-named inherited entry). -/
def MetaModel.addDeclared (st : Store) (acc : Schema)
    (declared : List (String × Addr)) : Store × Schema :=
  match declared with
  | [] => (st, acc)
  | (n, a) :: rest =>
    let copied := { st.read a with name := some n }
    let (st1, a1) := st.alloc copied
    MetaModel.addDeclared st1 (dictInsert acc n a1) rest

/-- `MetaModel.__new__`'s schema construction (model.py:6-27): merge deep
copies of the base schemas in base order, then the class's own declared
fields. -/
def MetaModel.new (st : Store) (bases : List Schema)
    (declared : List (String × Addr)) : Store × Schema :=
  let (st1, acc1) := MetaModel.copyBases st [] bases
  MetaModel.addDeclared st1 acc1 declared

/-- The addresses owned by a schema. -/
def Schema.addrs (s : Schema) : List Addr := s.map (fun p => p.2)

/-- Independence of two sibling subclasses built over the same base by
`MetaModel.__new__`: both schemas hold only freshly allocated cells, disjoint
from the base's cells and from each other, so writing through one subclass's
field address changes neither the base's nor the sibling's fields; and a
field redeclared on a subclass resolves to the fresh copy of the declared
instance, its `name` set to the attribute name. -/
def schemaIndependence (st0 : Store) (base : Schema)
    (d1 d2 : List (String × Addr)) : Prop :=
  (∀ b ∈ Schema.addrs (MetaModel.new st0 [base] d1).2,
      st0.length ≤ b ∧ b < (MetaModel.new st0 [base] d1).1.length)
  ∧ (∀ b ∈ Schema.addrs (MetaModel.new st0 [base] d1).2, b ∉ Schema.addrs base)
  ∧ (∀ b ∈ Schema.addrs (MetaModel.new st0 [base] d1).2,
      b ∉ Schema.addrs (MetaModel.new (MetaModel.new st0 [base] d1).1 [base] d2).2)
  ∧ (∀ a ∈ Schema.addrs (MetaModel.new st0 [base] d1).2, ∀ o : FieldObj, ∀ b,
      (b ∈ Schema.addrs base
        ∨ b ∈ Schema.addrs (MetaModel.new (MetaModel.new st0 [base] d1).1 [base] d2).2) →
      Store.read
        (Store.write (MetaModel.new (MetaModel.new st0 [base] d1).1 [base] d2).1 a o) b
        = Store.read (MetaModel.new (MetaModel.new st0 [base] d1).1 [base] d2).1 b)
  ∧ (∀ n a, (n, a) ∈ d1 →
      ∃ a', lookupStr (MetaModel.new st0 [base] d1).2 n = some a'
        ∧ Store.read (MetaModel.new st0 [base] d1).1 a'
            = { Store.read st0 a with name := some n })

/-- The `FieldD` behaviour of an `Integer` field instance with the given
configuration and default. -/
def Integer.fieldD (cfg : IntegerCfg) (default : PyDefault) : FieldD :=
  { deserialize := Integer.deserialize,
    default := default,
    validate := Field.validate (Integer.classValidators cfg),
    serialize := fun v => .ok (Integer.serialize v) }

/-- The `FieldD` behaviour of an `Any` field instance. -/
def Any.fieldD (cfg : BaseCfg) (default : PyDefault) : FieldD :=
  { deserialize := Any.deserialize,
    default := default,
    validate := Field.validate (BaseField.classValidators cfg),
    serialize := fun v => .ok (Any.serialize v) }

/-- The base `Field.serialize` (field.py:44-45), inherited unchanged by
`Boolean` and `String`: the identity. -/
def Field.serialize (v : PyVal) : PyVal := v

/-! ## Theorems -/

/-- The accumulator loop of `Field.validate` computes the spec-side collected
messages, prefixed by whatever was already accumulated. -/
theorem validateLoop_eq_spec (validators : List Validator) (value : PyVal)
    (errors : List String) :
    validateLoop validators value errors
      = (specCollected validators value).map (fun l => errors ++ l) := by
  induction validators generalizing errors with
  | nil => simp [validateLoop, specCollected, Except.map]
  | cons f rest ih =>
    simp only [validateLoop, specCollected]
    cases hf : f value with
    | ok u => simpa using ih errors
    | error e =>
      cases e with
      | fieldValidationError errs stop =>
        cases stop with
        | true => simp [Except.map]
        | false =>
          dsimp only
          rw [ih (errors ++ errs)]
          cases hs : specCollected rest value <;>
            simp [Except.map, List.append_assoc]
      | stopValidationSignal => simp [Except.map]
      | modelValidationError errs => simp [Except.map]
      | serializationError msg => simp [Except.map]
      | nameError n => simp [Except.map]
      | typeError => simp [Except.map]
      | attributeError => simp [Except.map]

/-- C1: `Field.validate` runs the ordered validator chain, collecting the
messages of every non-stopping `FieldError`, halting at the first stop-chain
`FieldError` (messages still collected) or `StopValidation` signal, and
afterwards raises one aggregated `FieldError` holding exactly the collected
messages if any were collected, succeeding otherwise; and the chain order is
built-ins first (required-check, then choices-check) followed by the
kind-specific validators in base-to-derived declaration order, as the
`Integer` chain exhibits. -/
theorem C1_field_validate_chain :
    (∀ (validators : List Validator) (value : PyVal),
        Field.validate validators value = Field.validateSpec validators value)
    ∧ (∀ cfg : IntegerCfg,
        Integer.classValidators cfg
          = [BaseField.validate_required cfg.required,
             BaseField.validate_choices cfg.choices,
             Integer.is_integer,
             Integer.validate_min cfg.min,
             Integer.validate_max cfg.max]) := by
  constructor
  · intro validators value
    unfold Field.validate Field.validateSpec
    rw [validateLoop_eq_spec]
    cases hs : specCollected validators value with
    | ok errs => cases errs <;> simp [Except.map]
    | error e => simp [Except.map]
  · intro cfg
    rfl

/-- C9: `Dict.deserialize` on null neither returns an empty mapping nor
raises a `SerializationError`: its null branch evaluates the unbound name
`dct`, so the call fails with a `NameError`. -/
theorem C9_dict_null_nameerror :
    ∀ (elemDe : PyVal → Except PyExn PyVal) (keyFn : PyVal → Except PyExn String),
      DictField.deserialize elemDe keyFn .none = .error (.nameError "dct")
      ∧ DictField.deserialize elemDe keyFn .none ≠ .ok (.dict [])
      ∧ ∀ msg, DictField.deserialize elemDe keyFn .none ≠ .error (.serializationError msg) := by
  intro elemDe keyFn
  refine ⟨rfl, ?_, ?_⟩
  · simp [DictField.deserialize]
  · intro msg
    simp [DictField.deserialize]

/-- C10: a `DateTime` field built with `now=True` stores the single
construction-time timestamp as a plain, non-callable default, so every
`Model.deserialize` that substitutes the default assigns that same fixed
datetime, independently of the world at deserialization time. -/
theorem C10_datetime_now_fixed_default :
    ∀ (c : DateTimeD) (d : PyDefault) (w1 w2 : World),
      DateTime.initDefault true c d = .value (.dt c)
      ∧ Model.deserialize
          [("ts", { deserialize := DateTime.deserialize 0,
                    default := DateTime.initDefault true c d,
                    validate := fun _ => .ok true,
                    serialize := DateTime.serialize })] [] w1
          = .ok [("ts", .dt c)]
      ∧ Model.deserialize
          [("ts", { deserialize := DateTime.deserialize 0,
                    default := DateTime.initDefault true c d,
                    validate := fun _ => .ok true,
                    serialize := DateTime.serialize })] [] w2
          = .ok [("ts", .dt c)] := by
  intro c d w1 w2
  exact ⟨rfl, rfl, rfl⟩

/-- C3 counterexample: `Integer.deserialize` on null does raise — `int(None)`
raises `TypeError`, which the method converts into a `SerializationError` —
so null does not pass through unchanged. -/
theorem C3_counterexample :
    Integer.deserialize .none = .error (.serializationError "This is not an integer")
    ∧ Integer.deserialize .none ≠ .ok .none := by
  refine ⟨rfl, ?_⟩
  simp [Integer.deserialize, pyIntCoerce]

/-- C3 amended: null passes through `deserialize` unchanged only for `Any`,
`ModelField` and `DateTime`; `Integer`, `Boolean`, `Snowflake` and
non-convert `String` raise `SerializationError` on null (convert `String`
coerces it to the text `"None"`), `List` maps null to the empty list and
`Dict`'s null branch fails with a `NameError`.  Absence of a required value
is still exclusively a validate-time concern, because `Model.deserialize`
never passes a null value to a field's `deserialize`: a field whose resolved
value is null is assigned null without invoking `deserialize` at all. -/
theorem C3_null_deserialize_amended :
    (Any.deserialize .none = .ok .none)
    ∧ (Integer.deserialize .none = .error (.serializationError Integer.notIntegerMsg))
    ∧ (Boolean.deserialize .none = .error (.serializationError Boolean.notBooleanMsg))
    ∧ (Snowflake.deserialize .none = .error (.serializationError Snowflake.notSnowflakeMsg))
    ∧ (StringField.deserialize false .none
        = .error (.serializationError (String.notStringMsg .none)))
    ∧ (StringField.deserialize true .none = .ok (.str "None"))
    ∧ (∀ elemDe, ListField.deserialize elemDe .none = .ok (.list []))
    ∧ (∀ elemDe keyFn, DictField.deserialize elemDe keyFn .none = .error (.nameError "dct"))
    ∧ (∀ isInst modelDe, ModelField.deserialize isInst modelDe .none = .ok .none)
    ∧ (∀ off, DateTime.deserialize off .none = .ok .none)
    ∧ (∀ (de : PyVal → Except PyExn PyVal) (va : PyVal → Except PyExn Bool)
         (se : PyVal → Except PyExn PyVal) (name : String) (w : World),
        Model.deserializeField
          { deserialize := de, default := .value .none, validate := va, serialize := se }
          [] name w = .ok .none)
    ∧ (∀ (de : PyVal → Except PyExn PyVal) (va : PyVal → Except PyExn Bool)
         (se : PyVal → Except PyExn PyVal) (w : World),
        Model.deserializeField
          { deserialize := de, default := .value .none, validate := va, serialize := se }
          [("x", .none)] "x" w = .ok .none) := by
  refine ⟨rfl, rfl, rfl, rfl, rfl, rfl, ?_, ?_, ?_, ?_, ?_, ?_⟩
  · intro elemDe; rfl
  · intro elemDe keyFn; rfl
  · intro isInst modelDe; rfl
  · intro off; rfl
  · intro de va se name w; rfl
  · intro de va se w; rfl

/-- C5 counterexample: on a payload whose key is present but maps to null,
`Model.deserialize` still substitutes the field's default (`dict.get`
conflates absence with explicit null), so the claim's
"only when the key is absent" is false: the instance gets `5`, not the null
the payload carried. -/
theorem C5_counterexample :
    Model.deserialize
      [("x", Integer.fieldD
        { required := false, choices := Option.none, min := Option.none, max := Option.none }
        (.value (.int 5)))]
      [("x", .none)] 0
      = .ok [("x", .int 5)]
    ∧ Model.deserialize
      [("x", Integer.fieldD
        { required := false, choices := Option.none, min := Option.none, max := Option.none }
        (.value (.int 5)))]
      [("x", .none)] 0
      ≠ .ok [("x", .none)] := by
  refine ⟨rfl, ?_⟩
  intro h
  have h0 : (Except.ok [("x", PyVal.int 5)] : Except PyExn (List (String × PyVal)))
      = .ok [("x", PyVal.none)] := h
  simp at h0

/-- C5 amended: `Model.deserialize` substitutes a field's default whenever
the looked-up value is null — both when the key is absent and when it is
present with an explicit null (the code reads `data.get(name)`, which
conflates the two); a callable default is invoked fresh on each
deserialization with the ambient world; the resulting value goes through the
field's deserialize only when non-null; and a failure from any field's
deserialize propagates immediately, unprocessed later fields included (first
failure wins). -/
theorem C5_deserialize_amended :
    (∀ (fields : List (String × FieldD)) (data : List (String × PyVal)) (w : World),
        Model.deserialize fields data w = Model.deserializeSpec fields data w)
    ∧ (∀ (va : PyVal → Except PyExn Bool) (se : PyVal → Except PyExn PyVal)
         (g : World → PyVal) (name : String) (w : World),
        Model.deserializeField
          { deserialize := fun v => .ok v, default := .producer g, validate := va, serialize := se }
          [] name w = .ok (g w))
    ∧ (∀ (pre : List (String × FieldD)) (nf : String × FieldD)
         (post : List (String × FieldD)) (data : List (String × PyVal))
         (w : World) (e : PyExn) (out : List (String × PyVal)),
        Model.deserialize pre data w = .ok out →
        Model.deserializeField nf.2 data nf.1 w = .error e →
        Model.deserialize (pre ++ nf :: post) data w = .error e) := by
  refine ⟨?_, ?_, ?_⟩
  · intro fields data w
    induction fields with
    | nil => rfl
    | cons p rest ih =>
      obtain ⟨name, field⟩ := p
      rw [show Model.deserialize ((name, field) :: rest) data w
            = (Model.deserializeField field data name w).bind
                (fun v => (Model.deserialize rest data w).bind
                  (fun tail => Except.ok ((name, v) :: tail))) from rfl,
          Model.deserializeSpec, List.mapM_cons, ih,
          show Model.specField field data name w
            = Model.deserializeField field data name w from rfl]
      cases hv : Model.deserializeField field data name w with
      | error e => rfl
      | ok v => rfl
  · intro va se g name w
    unfold Model.deserializeField
    dsimp only [dictGet, lookupStr, Option.getD]
    cases g w <;> rfl
  · intro pre nf post data w e out hpre hf
    induction pre generalizing out with
    | nil =>
      obtain ⟨n, f⟩ := nf
      dsimp only at hf
      rw [List.nil_append,
          show Model.deserialize ((n, f) :: post) data w
            = (Model.deserializeField f data n w).bind
                (fun v => (Model.deserialize post data w).bind
                  (fun tail => Except.ok ((n, v) :: tail))) from rfl,
          hf]
      rfl
    | cons p rest ih =>
      obtain ⟨pn, pf⟩ := p
      cases hv : Model.deserializeField pf data pn w with
      | error e' =>
        rw [Model.deserialize, hv] at hpre
        exact Except.noConfusion hpre
      | ok v =>
        rw [Model.deserialize, hv] at hpre
        cases ht : Model.deserialize rest data w with
        | error e' =>
          rw [ht] at hpre
          exact Except.noConfusion hpre
        | ok tail =>
          rw [List.cons_append,
              show Model.deserialize ((pn, pf) :: (rest ++ nf :: post)) data w
                = (Model.deserializeField pf data pn w).bind
                    (fun v => (Model.deserialize (rest ++ nf :: post) data w).bind
                      (fun tail => Except.ok ((pn, v) :: tail))) from rfl,
              hv, ih tail ht]
          rfl

/-- C5 witness: instantiating the first-failure clause — a two-field model
whose first field deserializes fine and whose second receives a non-numeric
string fails with that field's `SerializationError`. -/
theorem C5_witness :
    Model.deserialize
      [("a", Any.fieldD { required := false, choices := Option.none } (.value .none)),
       ("b", Integer.fieldD
         { required := false, choices := Option.none, min := Option.none, max := Option.none }
         (.value .none))]
      [("a", .int 1), ("b", .str "zz")] 0
      = .error (.serializationError Integer.notIntegerMsg) :=
  C5_deserialize_amended.2.2
    [("a", Any.fieldD { required := false, choices := Option.none } (.value .none))]
    ("b", Integer.fieldD
      { required := false, choices := Option.none, min := Option.none, max := Option.none }
      (.value .none))
    [] [("a", .int 1), ("b", .str "zz")] 0
    (.serializationError Integer.notIntegerMsg) [("a", .int 1)] rfl rfl

/-- The per-field loop of `Model.validate` appends exactly the violating
fields' entries (in schema order) to the accumulator, provided every field's
validate outcome is one the loop can catch. -/
theorem validateFields_eq_spec (fields : List (String × FieldD)) (inst : Instance)
    (acc : List (String × ErrTree))
    (h : ∀ nf ∈ fields, catchableOutcome (nf.2.validate (inst nf.1))) :
    Model.validateFields fields inst acc = .ok (acc ++ Model.specViolations fields inst) := by
  induction fields generalizing acc with
  | nil => simp [Model.validateFields, Model.specViolations]
  | cons p rest ih =>
    obtain ⟨name, field⟩ := p
    have hp := h _ (List.mem_cons_self _ _)
    have hrest := fun nf hnf => h nf (List.mem_cons_of_mem _ hnf)
    simp only [Model.validateFields, Model.specViolations, List.filterMap_cons]
    cases hv : field.validate (inst name) with
    | ok b =>
      dsimp only
      rw [ih _ hrest]
      rfl
    | error e =>
      rw [hv] at hp
      cases e with
      | fieldValidationError errs stop =>
        dsimp only
        rw [ih _ hrest]
        simp [Model.specViolations]
      | modelValidationError errs =>
        dsimp only
        rw [ih _ hrest]
        simp [Model.specViolations]
      | stopValidationSignal => exact hp.elim
      | serializationError msg => exact hp.elim
      | nameError n => exact hp.elim
      | typeError => exact hp.elim
      | attributeError => exact hp.elim

/-- C2 counterexample: a model with no fields (hence no recorded errors) but
a registered model-level validator that raises does not succeed, contradicting
the claim's "otherwise validate succeeds". -/
theorem C2_counterexample :
    Model.validate [] [fun _ => .error (.serializationError "boom")] (fun _ => .none)
      = .error (.serializationError "boom")
    ∧ Model.validate [] [fun _ => .error (.serializationError "boom")] (fun _ => .none)
      ≠ .ok () := by
  refine ⟨rfl, ?_⟩
  intro h
  have h0 : (Except.error (PyExn.serializationError "boom") : Except PyExn Unit)
      = .ok () := h
  simp at h0

/-- C2 amended: `Model.validate` visits every field, catches each field's
`FieldError`, records its messages under that field's name and continues;
after all fields are checked, if any errors were recorded it raises an
aggregate `ModelValidationError` containing an entry for every violating
field (not just the first); otherwise it proceeds to the model-level
validator pass, succeeding exactly when that pass does (in particular it
succeeds on a model with no model-level validators). -/
theorem C2_model_validate_amended :
    ∀ (fields : List (String × FieldD)) (validators : List ModelValidator)
      (inst : Instance),
      (∀ nf ∈ fields, catchableOutcome (nf.2.validate (inst nf.1))) →
      Model.validateFields fields inst [] = .ok (Model.specViolations fields inst)
      ∧ (Model.specViolations fields inst ≠ [] →
          Model.validate fields validators inst
            = .error (.modelValidationError (Model.specViolations fields inst)))
      ∧ (Model.specViolations fields inst = [] →
          Model.validate fields validators inst = Model.runValidators validators inst) := by
  intro fields validators inst h
  have hF := validateFields_eq_spec fields inst [] h
  rw [List.nil_append] at hF
  refine ⟨hF, ?_, ?_⟩
  · intro hne
    unfold Model.validate
    rw [hF]
    cases hs : Model.specViolations fields inst with
    | nil => exact absurd hs hne
    | cons x xs => rfl
  · intro he
    unfold Model.validate
    rw [hF, he]
    rfl

/-- C2 witness: a model with two simultaneously-violating required fields
aggregates entries for both fields. -/
theorem C2_witness :
    Model.validate
      [("x", Integer.fieldD
        { required := true, choices := Option.none, min := Option.none, max := Option.none }
        (.value .none)),
       ("y", Integer.fieldD
        { required := true, choices := Option.none, min := Option.none, max := Option.none }
        (.value .none))]
      [] (fun _ => .none)
      = .error (.modelValidationError
          [("x", .msgs [requiredMsg]), ("y", .msgs [requiredMsg])]) := by
  have h := C2_model_validate_amended
    [("x", Integer.fieldD
      { required := true, choices := Option.none, min := Option.none, max := Option.none }
      (.value .none)),
     ("y", Integer.fieldD
      { required := true, choices := Option.none, min := Option.none, max := Option.none }
      (.value .none))]
    [] (fun _ => .none)
    (by intro nf hnf; fin_cases hnf <;> exact trivial)
  exact h.2.1 (List.cons_ne_nil _ _)

/-- C8: `Model.validate` ships a model-level validation pass: when per-field
validation records any error the aggregate is raised and the model-level
validators are skipped entirely (the result does not depend on them); when no
error is recorded, the registered validators run on the instance in
collection order — earlier validators run before later ones, the first
failure propagates and skips the rest — and `MetaModel` collects them as the
inherited base lists, in base order, followed by the class's own
declarations. -/
theorem C8_model_validators :
    (∀ (fields : List (String × FieldD)) (validators : List ModelValidator)
       (inst : Instance) (ves : List (String × ErrTree)),
        Model.validateFields fields inst [] = .ok ves → ves ≠ [] →
        Model.validate fields validators inst = .error (.modelValidationError ves))
    ∧ (∀ (fields : List (String × FieldD)) (validators : List ModelValidator)
         (inst : Instance),
        Model.validateFields fields inst [] = .ok [] →
        Model.validate fields validators inst = Model.runValidators validators inst)
    ∧ (∀ (pre post : List ModelValidator) (f : ModelValidator) (inst : Instance)
         (e : PyExn),
        (∀ v ∈ pre, v inst = .ok ()) → f inst = .error e →
        Model.runValidators (pre ++ f :: post) inst = .error e)
    ∧ (∀ (bases : List (List ModelValidator)) (own : List ModelValidator),
        MetaModel.collectValidators bases own = bases.flatten ++ own) := by
  refine ⟨?_, ?_, ?_, ?_⟩
  · intro fields validators inst ves hF hne
    unfold Model.validate
    rw [hF]
    cases ves with
    | nil => exact absurd rfl hne
    | cons x xs => rfl
  · intro fields validators inst hF
    unfold Model.validate
    rw [hF]
    rfl
  · intro pre post f inst e hpre hf
    induction pre with
    | nil =>
      rw [List.nil_append,
          show Model.runValidators (f :: post) inst
            = (f inst).bind (fun _ => Model.runValidators post inst) from rfl,
          hf]
      rfl
    | cons v rest ih =>
      have hv := hpre _ (List.mem_cons_self _ _)
      rw [List.cons_append,
          show Model.runValidators (v :: (rest ++ f :: post)) inst
            = (v inst).bind (fun _ => Model.runValidators (rest ++ f :: post) inst) from rfl,
          hv, ih (fun u hu => hpre _ (List.mem_cons_of_mem _ hu))]
      rfl
  · intro bases own
    rfl

/-- C8 witness: with all fields clean, the second of three model validators
fails and its error is the result; with a violating field, a raising model
validator is never consulted and the field aggregate is raised instead. -/
theorem C8_witness :
    Model.runValidators
      [fun _ => .ok (), fun _ => .error (.serializationError "boom"), fun _ => .ok ()]
      (fun _ => .none)
      = .error (.serializationError "boom")
    ∧ Model.validate
      [("x", Integer.fieldD
        { required := true, choices := Option.none, min := Option.none, max := Option.none }
        (.value .none))]
      [fun _ => .error (.serializationError "boom")] (fun _ => .none)
      = .error (.modelValidationError [("x", .msgs [requiredMsg])]) := by
  constructor
  · exact C8_model_validators.2.2.1 [fun _ => .ok ()] [fun _ => .ok ()]
      (fun _ => .error (.serializationError "boom")) (fun _ => .none)
      (.serializationError "boom")
      (by intro v hv; fin_cases hv; rfl) rfl
  · exact C8_model_validators.1 _ _ _ _ rfl (List.cons_ne_nil _ _)

/-- C4: `DateTime.parse` maps `"2021-07-04"` to midnight UTC on that date and
rejects `"not-a-date"` with a `SerializationError`, as claimed; but on
`"2021-07-04T10:30:00+02:00"` it returns 10:30:00 tagged UTC — the regex
captures the `+02:00` offset, yet `parse` constructs the result with the
hardcoded `tz = datetime.timezone.utc` of fields.py:433, so the value denotes
a different absolute instant than the supplied-offset reading
10:30:00+02:00 (which is 08:30:00 UTC). -/
theorem C4_datetime_parse_offset_dropped :
    DateTime.parse "2021-07-04"
      = .ok { year := 2021, month := 7, day := 4, hour := 0, minute := 0,
              second := 0, microsecond := 0, tz := some 0 }
    ∧ DateTime.parse "2021-07-04T10:30:00+02:00"
      = .ok { year := 2021, month := 7, day := 4, hour := 10, minute := 30,
              second := 0, microsecond := 0, tz := some 0 }
    ∧ dtEqb { year := 2021, month := 7, day := 4, hour := 10, minute := 30,
              second := 0, microsecond := 0, tz := some 0 }
            { year := 2021, month := 7, day := 4, hour := 10, minute := 30,
              second := 0, microsecond := 0, tz := some 120 } = false
    ∧ DateTime.parse "not-a-date"
      = .error (.serializationError DateTime.unknownFormatMsg) :=
  ⟨rfl, rfl, rfl, rfl⟩

/-- Writing at one address leaves reads at any other address unchanged. -/
theorem Store.read_write_ne (st : Store) (a b : Addr) (o : FieldObj) (h : b ≠ a) :
    (st.write a o).read b = st.read b := by
  induction st generalizing a b with
  | nil => rfl
  | cons x xs ih =>
    cases a with
    | zero =>
      cases b with
      | zero => exact absurd rfl h
      | succ b' => rfl
    | succ a' =>
      cases b with
      | zero => rfl
      | succ b' => exact ih a' b' (fun hc => h (congrArg Nat.succ hc))

/-- Reads below the original length see through an append. -/
theorem Store.read_append_left (st ext : Store) (a : Addr) (h : a < st.length) :
    (st ++ ext).read a = st.read a := by
  induction st generalizing a with
  | nil => exact absurd h (Nat.not_lt_zero a)
  | cons x xs ih =>
    cases a with
    | zero => rfl
    | succ a' => exact ih a' (Nat.lt_of_succ_lt_succ h)

/-- Reading a freshly appended cell yields that cell. -/
theorem Store.read_append_cell (st : Store) (o : FieldObj) :
    (st ++ [o]).read st.length = o := by
  induction st with
  | nil => rfl
  | cons x xs ih => exact ih

/-- Looking up the inserted key finds the inserted address. -/
theorem lookupStr_dictInsert_self (d : Schema) (k : String) (a : Addr) :
    lookupStr (dictInsert d k a) k = some a := by
  induction d with
  | nil => simp [dictInsert, lookupStr]
  | cons p rest ih =>
    obtain ⟨q, b⟩ := p
    by_cases h : q = k
    · simp [dictInsert, lookupStr, h]
    · simp [dictInsert, lookupStr, h, ih]

/-- Inserting one key does not affect lookups of另 a different key. -/
theorem lookupStr_dictInsert_ne (d : Schema) (k k' : String) (a : Addr)
    (h : k ≠ k') : lookupStr (dictInsert d k a) k' = lookupStr d k' := by
  induction d with
  | nil => simp [dictInsert, lookupStr, h]
  | cons p rest ih =>
    obtain ⟨q, b⟩ := p
    by_cases hq : q = k
    · subst hq
      simp [dictInsert, lookupStr, h]
    · by_cases hq' : q = k'
      · simp [dictInsert, lookupStr, hq, hq', Ne.symm h]
      · simp [dictInsert, lookupStr, hq, hq', ih]

/-- The addresses after an insert are the inserted one plus the old ones. -/
theorem addrs_dictInsert (d : Schema) (k : String) (a : Addr) :
    ∀ b ∈ Schema.addrs (dictInsert d k a), b = a ∨ b ∈ Schema.addrs d := by
  induction d with
  | nil =>
    intro b hb
    simp [dictInsert, Schema.addrs] at hb
    exact Or.inl hb
  | cons p rest ih =>
    obtain ⟨q, c⟩ := p
    intro b hb
    by_cases hq : q = k
    · simp [dictInsert, hq, Schema.addrs] at hb ⊢
      tauto
    · simp [dictInsert, hq, Schema.addrs] at hb ⊢
      rcases hb with h | h
      · exact Or.inr (Or.inl h)
      · rcases ih b (by simpa [Schema.addrs] using h) with h' | h'
        · exact Or.inl h'
        · simp [Schema.addrs] at h'
          tauto

/-- Unfolding equation for the base-copy loop. -/
theorem copyBase_cons (st : Store) (acc : Schema) (n : String) (a : Addr)
    (rest : Schema) :
    MetaModel.copyBase st acc ((n, a) :: rest)
      = MetaModel.copyBase (st ++ [st.read a]) (dictInsert acc n st.length) rest := rfl

/-- The base-copy loop only appends to the store. -/
theorem copyBase_store_ext (base : Schema) :
    ∀ (st : Store) (acc : Schema), ∃ ext,
      (MetaModel.copyBase st acc base).1 = st ++ ext := by
  induction base with
  | nil => exact fun st acc => ⟨[], (List.append_nil st).symm⟩
  | cons p rest ih =>
    intro st acc
    obtain ⟨n, a⟩ := p
    obtain ⟨ext, hext⟩ := ih (st ++ [st.read a]) (dictInsert acc n st.length)
    exact ⟨[st.read a] ++ ext, by rw [copyBase_cons, hext, List.append_assoc]⟩

/-- The base-copy loop never shrinks the store. -/
theorem copyBase_len_le (base : Schema) (st : Store) (acc : Schema) :
    st.length ≤ (MetaModel.copyBase st acc base).1.length := by
  obtain ⟨ext, hext⟩ := copyBase_store_ext base st acc
  rw [hext, List.length_append]
  omega

/-- Schema addresses produced by the base-copy loop are either accumulated
ones or freshly allocated ones. -/
theorem copyBase_addrs (base : Schema) :
    ∀ (st : Store) (acc : Schema), ∀ b ∈ Schema.addrs (MetaModel.copyBase st acc base).2,
      b ∈ Schema.addrs acc
        ∨ (st.length ≤ b ∧ b < (MetaModel.copyBase st acc base).1.length) := by
  induction base with
  | nil => exact fun st acc b hb => Or.inl hb
  | cons p rest ih =>
    intro st acc b hb
    obtain ⟨n, a⟩ := p
    rw [copyBase_cons] at hb
    have hlen := copyBase_len_le rest (st ++ [st.read a]) (dictInsert acc n st.length)
    simp only [List.length_append, List.length_cons, List.length_nil] at hlen
    rcases ih (st ++ [st.read a]) (dictInsert acc n st.length) b hb with h | h
    · rcases addrs_dictInsert acc n st.length b h with h' | h'
      · subst h'
        right
        rw [copyBase_cons]
        exact ⟨Nat.le_refl _, Nat.lt_of_succ_le hlen⟩
      · exact Or.inl h'
    · obtain ⟨ha, hb'⟩ := h
      simp only [List.length_append, List.length_cons, List.length_nil] at ha
      right
      rw [copyBase_cons]
      exact ⟨Nat.le_trans (Nat.le_add_right _ _) ha, hb'⟩

/-- Unfolding equation for the bases loop. -/
theorem copyBases_cons (st : Store) (acc : Schema) (b : Schema) (rest : List Schema) :
    MetaModel.copyBases st acc (b :: rest)
      = MetaModel.copyBases (MetaModel.copyBase st acc b).1
          (MetaModel.copyBase st acc b).2 rest := rfl

/-- The bases loop only appends to the store. -/
theorem copyBases_store_ext (bases : List Schema) :
    ∀ (st : Store) (acc : Schema), ∃ ext,
      (MetaModel.copyBases st acc bases).1 = st ++ ext := by
  induction bases with
  | nil => exact fun st acc => ⟨[], (List.append_nil st).symm⟩
  | cons b rest ih =>
    intro st acc
    obtain ⟨e1, h1⟩ := copyBase_store_ext b st acc
    obtain ⟨e2, h2⟩ := ih (MetaModel.copyBase st acc b).1 (MetaModel.copyBase st acc b).2
    exact ⟨e1 ++ e2, by rw [copyBases_cons, h2, h1, List.append_assoc]⟩

/-- The bases loop never shrinks the store. -/
theorem copyBases_len_le (bases : List Schema) (st : Store) (acc : Schema) :
    st.length ≤ (MetaModel.copyBases st acc bases).1.length := by
  obtain ⟨ext, hext⟩ := copyBases_store_ext bases st acc
  rw [hext, List.length_append]
  omega

/-- Schema addresses produced by the bases loop are accumulated or fresh. -/
theorem copyBases_addrs (bases : List Schema) :
    ∀ (st : Store) (acc : Schema), ∀ b ∈ Schema.addrs (MetaModel.copyBases st acc bases).2,
      b ∈ Schema.addrs acc
        ∨ (st.length ≤ b ∧ b < (MetaModel.copyBases st acc bases).1.length) := by
  induction bases with
  | nil => exact fun st acc b hb => Or.inl hb
  | cons bb rest ih =>
    intro st acc b hb
    rw [copyBases_cons] at hb
    have hlen1 := copyBase_len_le bb st acc
    have hlen2 := copyBases_len_le rest (MetaModel.copyBase st acc bb).1
      (MetaModel.copyBase st acc bb).2
    rcases ih _ _ b hb with h | h
    · rcases copyBase_addrs bb st acc b h with h' | h'
      · exact Or.inl h'
      · obtain ⟨ha, hb'⟩ := h'
        right
        rw [copyBases_cons]
        exact ⟨ha, Nat.lt_of_lt_of_le hb' hlen2⟩
    · obtain ⟨ha, hb'⟩ := h
      right
      rw [copyBases_cons]
      exact ⟨Nat.le_trans hlen1 ha, hb'⟩

/-- Unfolding equation for the declared-attribute loop. -/
theorem addDeclared_cons (st : Store) (acc : Schema) (n : String) (a : Addr)
    (rest : List (String × Addr)) :
    MetaModel.addDeclared st acc ((n, a) :: rest)
      = MetaModel.addDeclared (st ++ [{ st.read a with name := some n }])
          (dictInsert acc n st.length) rest := rfl

/-- The declared-attribute loop only appends to the store. -/
theorem addDeclared_store_ext (declared : List (String × Addr)) :
    ∀ (st : Store) (acc : Schema), ∃ ext,
      (MetaModel.addDeclared st acc declared).1 = st ++ ext := by
  induction declared with
  | nil => exact fun st acc => ⟨[], (List.append_nil st).symm⟩
  | cons p rest ih =>
    intro st acc
    obtain ⟨n, a⟩ := p
    obtain ⟨ext, hext⟩ := ih (st ++ [{ st.read a with name := some n }])
      (dictInsert acc n st.length)
    exact ⟨[{ st.read a with name := some n }] ++ ext,
      by rw [addDeclared_cons, hext, List.append_assoc]⟩

/-- The declared-attribute loop never shrinks the store. -/
theorem addDeclared_len_le (declared : List (String × Addr)) (st : Store)
    (acc : Schema) :
    st.length ≤ (MetaModel.addDeclared st acc declared).1.length := by
  obtain ⟨ext, hext⟩ := addDeclared_store_ext declared st acc
  rw [hext, List.length_append]
  omega

/-- Schema addresses after the declared-attribute loop are accumulated or
fresh. -/
theorem addDeclared_addrs (declared : List (String × Addr)) :
    ∀ (st : Store) (acc : Schema),
      ∀ b ∈ Schema.addrs (MetaModel.addDeclared st acc declared).2,
      b ∈ Schema.addrs acc
        ∨ (st.length ≤ b ∧ b < (MetaModel.addDeclared st acc declared).1.length) := by
  induction declared with
  | nil => exact fun st acc b hb => Or.inl hb
  | cons p rest ih =>
    intro st acc b hb
    obtain ⟨n, a⟩ := p
    rw [addDeclared_cons] at hb
    have hlen := addDeclared_len_le rest (st ++ [{ st.read a with name := some n }])
      (dictInsert acc n st.length)
    simp only [List.length_append, List.length_cons, List.length_nil] at hlen
    rcases ih _ _ b hb with h | h
    · rcases addrs_dictInsert acc n st.length b h with h' | h'
      · subst h'
        right
        rw [addDeclared_cons]
        exact ⟨Nat.le_refl _, Nat.lt_of_succ_le hlen⟩
      · exact Or.inl h'
    · obtain ⟨ha, hb'⟩ := h
      simp only [List.length_append, List.length_cons, List.length_nil] at ha
      right
      rw [addDeclared_cons]
      exact ⟨Nat.le_trans (Nat.le_add_right _ _) ha, hb'⟩

/-- The declared-attribute loop leaves lookups of undeclared names alone. -/
theorem addDeclared_lookup_not_mem (declared : List (String × Addr)) :
    ∀ (st : Store) (acc : Schema) (k : String), k ∉ declared.map Prod.fst →
      lookupStr (MetaModel.addDeclared st acc declared).2 k = lookupStr acc k := by
  induction declared with
  | nil => exact fun st acc k _ => rfl
  | cons p rest ih =>
    intro st acc k hk
    obtain ⟨n, a⟩ := p
    rw [List.map_cons] at hk
    have hn : n ≠ k := fun h => hk (by rw [h]; exact List.mem_cons_self _ _)
    have hrest : k ∉ rest.map Prod.fst := fun h => hk (List.mem_cons_of_mem _ h)
    rw [addDeclared_cons, ih _ _ k hrest, lookupStr_dictInsert_ne _ _ _ _ hn]

/-- Each declared field resolves, in the finished schema, to a fresh copy of
the declared instance with its `name` set to the attribute name. -/
theorem addDeclared_lookup (declared : List (String × Addr)) :
    ∀ (st : Store) (acc : Schema) (n : String) (a : Addr),
      (n, a) ∈ declared → (declared.map Prod.fst).Nodup →
      (∀ p ∈ declared, p.2 < st.length) →
      ∃ a', lookupStr (MetaModel.addDeclared st acc declared).2 n = some a'
        ∧ (MetaModel.addDeclared st acc declared).1.read a'
            = { st.read a with name := some n } := by
  induction declared with
  | nil => intro st acc n a h; exact absurd h (List.not_mem_nil _)
  | cons p rest ih =>
    intro st acc n a hmem hnd hbound
    obtain ⟨m, b⟩ := p
    rw [List.map_cons, List.nodup_cons] at hnd
    rcases List.mem_cons.mp hmem with heq | htail
    · injection heq with h1 h2
      subst h1
      subst h2
      rw [addDeclared_cons]
      refine ⟨st.length, ?_, ?_⟩
      · rw [addDeclared_lookup_not_mem rest _ _ n hnd.1, lookupStr_dictInsert_self]
      · obtain ⟨ext, hext⟩ := addDeclared_store_ext rest
          (st ++ [{ st.read a with name := some n }]) (dictInsert acc n st.length)
        have hlt : st.length < (st ++ [{ st.read a with name := some n }]).length := by
          rw [List.length_append]
          simp only [List.length_cons, List.length_nil]
          omega
        rw [hext, Store.read_append_left _ ext st.length hlt, Store.read_append_cell]
    · have hb : a < st.length := hbound _ hmem
      rw [addDeclared_cons]
      obtain ⟨a', hl, hr⟩ := ih (st ++ [{ st.read b with name := some m }])
        (dictInsert acc m st.length) n a htail hnd.2
        (fun p hp => by
          have hlt2 := hbound p (List.mem_cons_of_mem _ hp)
          rw [List.length_append]
          simp only [List.length_cons, List.length_nil]
          exact Nat.lt_succ_of_lt hlt2)
      refine ⟨a', hl, ?_⟩
      rw [hr, Store.read_append_left st _ a hb]

/-- Unfolding equation for `MetaModel.new`. -/
theorem metaModelNew_eq (st : Store) (bases : List Schema)
    (declared : List (String × Addr)) :
    MetaModel.new st bases declared
      = MetaModel.addDeclared (MetaModel.copyBases st [] bases).1
          (MetaModel.copyBases st [] bases).2 declared := rfl

/-- `MetaModel.new` only appends to the store. -/
theorem metaModelNew_store_ext (st : Store) (bases : List Schema)
    (declared : List (String × Addr)) :
    ∃ ext, (MetaModel.new st bases declared).1 = st ++ ext := by
  obtain ⟨e1, h1⟩ := copyBases_store_ext bases st []
  obtain ⟨e2, h2⟩ := addDeclared_store_ext declared (MetaModel.copyBases st [] bases).1
    (MetaModel.copyBases st [] bases).2
  exact ⟨e1 ++ e2, by rw [metaModelNew_eq, h2, h1, List.append_assoc]⟩

/-- Every address owned by a schema `MetaModel.new` builds is freshly
allocated: at or above the prior store length and below the new one. -/
theorem metaModelNew_addrs (st : Store) (bases : List Schema)
    (declared : List (String × Addr)) :
    ∀ b ∈ Schema.addrs (MetaModel.new st bases declared).2,
      st.length ≤ b ∧ b < (MetaModel.new st bases declared).1.length := by
  intro b hb
  rw [metaModelNew_eq] at hb
  have hlen1 := copyBases_len_le bases st []
  have hlen2 := addDeclared_len_le declared (MetaModel.copyBases st [] bases).1
    (MetaModel.copyBases st [] bases).2
  rcases addDeclared_addrs declared _ _ b hb with h | h
  · rcases copyBases_addrs bases st [] b h with h' | h'
    · exact absurd h' (by simp [Schema.addrs])
    · obtain ⟨ha, hb'⟩ := h'
      rw [metaModelNew_eq]
      exact ⟨ha, Nat.lt_of_lt_of_le hb' hlen2⟩
  · obtain ⟨ha, hb'⟩ := h
    rw [metaModelNew_eq]
    exact ⟨Nat.le_trans hlen1 ha, hb'⟩

/-- C7: schema construction deep-copies every field: the two schemas built by
sibling subclasses over the same base own only fresh, pairwise-disjoint store
cells, also disjoint from the base's cells, so a metadata write through one
subclass's field address never changes the field object the base or the
sibling sees; and a field redeclared on a subclass resolves to the fresh copy
of the subclass's declared instance (name set at collection time),
overriding the inherited entry. -/
theorem C7_schema_deepcopy (st0 : Store) (base : Schema)
    (d1 d2 : List (String × Addr))
    (hbase : ∀ b ∈ Schema.addrs base, b < st0.length)
    (hd1 : ∀ p ∈ d1, p.2 < st0.length)
    (hnd : (d1.map Prod.fst).Nodup) :
    schemaIndependence st0 base d1 d2 := by
  have h1 := metaModelNew_addrs st0 [base] d1
  have h2 := metaModelNew_addrs (MetaModel.new st0 [base] d1).1 [base] d2
  refine ⟨h1, ?_, ?_, ?_, ?_⟩
  · intro b hb hmem
    exact absurd (hbase b hmem) (Nat.not_lt.mpr (h1 b hb).1)
  · intro b hb hmem
    exact absurd (h1 b hb).2 (Nat.not_lt.mpr (h2 b hmem).1)
  · intro a ha o b hb
    apply Store.read_write_ne
    rcases hb with hb | hb
    · exact fun he => absurd (he ▸ hbase b hb) (Nat.not_lt.mpr (h1 a ha).1)
    · exact fun he => absurd (h1 a ha).2 (Nat.not_lt.mpr (he ▸ (h2 b hb).1))
  · intro n a hmem
    rw [metaModelNew_eq]
    have hlen1 := copyBases_len_le [base] st0 []
    obtain ⟨a', hl, hr⟩ := addDeclared_lookup d1 (MetaModel.copyBases st0 [] [base]).1
      (MetaModel.copyBases st0 [] [base]).2 n a hmem hnd
      (fun p hp => lt_of_lt_of_le (hd1 p hp) hlen1)
    refine ⟨a', hl, ?_⟩
    obtain ⟨ext, hext⟩ := copyBases_store_ext [base] st0 []
    rw [hr, hext, Store.read_append_left st0 ext a (hd1 _ hmem)]

/-- C7 witness: two sibling subclasses of a one-field base, each redeclaring
a field, on a concrete two-cell store. -/
theorem C7_witness :
    (∀ b ∈ Schema.addrs [("f", 0)], b < ([⟨some "f", 7⟩, ⟨Option.none, 8⟩] : Store).length)
    ∧ (∀ p ∈ [("g", 1)], (p : String × Addr).2
        < ([⟨some "f", 7⟩, ⟨Option.none, 8⟩] : Store).length)
    ∧ ((([("g", 1)] : List (String × Addr)).map Prod.fst).Nodup)
    ∧ schemaIndependence [⟨some "f", 7⟩, ⟨Option.none, 8⟩] [("f", 0)] [("g", 1)] [("g", 1)] :=
  ⟨by decide, by decide, by decide,
   C7_schema_deepcopy [⟨some "f", 7⟩, ⟨Option.none, 8⟩] [("f", 0)] [("g", 1)] [("g", 1)]
     (by decide) (by decide) (by decide)⟩

/-! Round-trip lemmas for the DateTime ISO-8601 renderer and matcher. -/

/-- If a candidate succeeds with its continuation, so does the search. -/
theorem firstSome_cons_some (x : α) (xs : List α) (k : α → Option β) (r : β)
    (h : k x = some r) : firstSome (x :: xs) k = some r := by
  simp [firstSome, h]

/-- A successful search through a prefix succeeds through the whole list. -/
theorem firstSome_append_left (l1 l2 : List α) (k : α → Option β) (r : β)
    (h : firstSome l1 k = some r) : firstSome (l1 ++ l2) k = some r := by
  induction l1 with
  | nil => exact absurd h (by simp [firstSome])
  | cons x xs ih =>
    rw [List.cons_append]
    rw [firstSome] at h ⊢
    cases hx : k x with
    | some b => rw [hx] at h; exact h
    | none => rw [hx] at h; exact ih h

/-- A digit character has the expected code point. -/
theorem isDigitC_digitChar (n : Nat) (h : n < 10) : isDigitC (digitChar n) = true := by
  interval_cases n <;> decide

/-- A digit character decodes to its digit. -/
theorem digVal_digitChar (n : Nat) (h : n < 10) : digVal (digitChar n) = n := by
  interval_cases n <;> decide

/-- Two rendered digits parse back to the value. -/
theorem digits2_pad2 (n : Nat) (h : n < 100) (r : List Char) :
    digits2 (pad2 n ++ r) = some (n, r) := by
  have hd1 : n / 10 % 10 < 10 := Nat.mod_lt _ (by norm_num)
  have hd2 : n % 10 < 10 := Nat.mod_lt _ (by norm_num)
  have harith : n / 10 % 10 * 10 + n % 10 = n := by omega
  simp [pad2, digits2, isDigitC_digitChar _ hd1, isDigitC_digitChar _ hd2,
    digVal_digitChar _ hd1, digVal_digitChar _ hd2, harith]

/-- Four rendered digits parse back to the value. -/
theorem digits4_pad4 (n : Nat) (h : n < 10000) (r : List Char) :
    digits4 (pad4 n ++ r) = some (n, r) := by
  have hd1 : n / 1000 % 10 < 10 := Nat.mod_lt _ (by norm_num)
  have hd2 : n / 100 % 10 < 10 := Nat.mod_lt _ (by norm_num)
  have hd3 : n / 10 % 10 < 10 := Nat.mod_lt _ (by norm_num)
  have hd4 : n % 10 < 10 := Nat.mod_lt _ (by norm_num)
  have harith : ((n / 1000 % 10 * 10 + n / 100 % 10) * 10 + n / 10 % 10) * 10 + n % 10 = n := by
    omega
  simp [pad4, digits4, isDigitC_digitChar _ hd1, isDigitC_digitChar _ hd2,
    isDigitC_digitChar _ hd3, isDigitC_digitChar _ hd4,
    digVal_digitChar _ hd1, digVal_digitChar _ hd2,
    digVal_digitChar _ hd3, digVal_digitChar _ hd4, harith]

/-- Greedy one-or-two-digit candidates on two rendered digits. -/
theorem digits1or2_pad2 (n : Nat) (h : n < 100) (r : List Char) :
    digits1or2 (pad2 n ++ r) = [(n, r), (n / 10, digitChar (n % 10) :: r)] := by
  have hd1 : n / 10 % 10 < 10 := Nat.mod_lt _ (by norm_num)
  have hd2 : n % 10 < 10 := Nat.mod_lt _ (by norm_num)
  have hd1' : n / 10 < 10 := by omega
  have harith : n / 10 % 10 * 10 + n % 10 = n := by omega
  have harith2 : n / 10 % 10 = n / 10 := by omega
  have harith3 : n / 10 * 10 + n % 10 = n := by omega
  simp [pad2, digits1or2, isDigitC_digitChar _ hd1, isDigitC_digitChar _ hd2,
    isDigitC_digitChar _ hd1', digVal_digitChar _ hd1, digVal_digitChar _ hd2,
    digVal_digitChar _ hd1', harith, harith2, harith3]

/-- Two-digit parsing fails on a non-digit head. -/
theorem digits2_not_digit (c : Char) (hc : isDigitC c = false) (l : List Char) :
    digits2 (c :: l) = Option.none := by
  cases l with
  | nil => rfl
  | cons b r => simp [digits2, hc]

/-- One-or-two-digit candidates are empty on a non-digit head. -/
theorem digits1or2_not_digit (c : Char) (hc : isDigitC c = false) (l : List Char) :
    digits1or2 (c :: l) = [] := by
  cases l with
  | nil => simp [digits1or2, hc]
  | cons b r => simp [digits1or2, hc]

/-- Six rendered digits are one maximal digit run before a plus sign. -/
theorem takeDigits_pad6 (n : Nat) (_h : n < 1000000) (r : List Char) :
    takeDigits (pad6 n ++ '+' :: r) = (pad6 n, '+' :: r) := by
  have h1 : n / 100000 % 10 < 10 := Nat.mod_lt _ (by norm_num)
  have h2 : n / 10000 % 10 < 10 := Nat.mod_lt _ (by norm_num)
  have h3 : n / 1000 % 10 < 10 := Nat.mod_lt _ (by norm_num)
  have h4 : n / 100 % 10 < 10 := Nat.mod_lt _ (by norm_num)
  have h5 : n / 10 % 10 < 10 := Nat.mod_lt _ (by norm_num)
  have h6 : n % 10 < 10 := Nat.mod_lt _ (by norm_num)
  simp [pad6, takeDigits, isDigitC_digitChar _ h1, isDigitC_digitChar _ h2,
    isDigitC_digitChar _ h3, isDigitC_digitChar _ h4, isDigitC_digitChar _ h5,
    isDigitC_digitChar _ h6, show isDigitC '+' = false from by decide]

/-- The timezone candidates of the rendered UTC suffix. -/
theorem tzCands_utc : tzCands ['+', '0', '0', ':', '0', '0'] = [[], ['0', '0'], [':', '0', '0']] := by
  decide

/-- Six rendered digits decode to the value. -/
theorem digitsVal_pad6 (n : Nat) (h : n < 1000000) : digitsVal (pad6 n) = n := by
  have h1 : n / 100000 % 10 < 10 := Nat.mod_lt _ (by norm_num)
  have h2 : n / 10000 % 10 < 10 := Nat.mod_lt _ (by norm_num)
  have h3 : n / 1000 % 10 < 10 := Nat.mod_lt _ (by norm_num)
  have h4 : n / 100 % 10 < 10 := Nat.mod_lt _ (by norm_num)
  have h5 : n / 10 % 10 < 10 := Nat.mod_lt _ (by norm_num)
  have h6 : n % 10 < 10 := Nat.mod_lt _ (by norm_num)
  simp [pad6, digitsVal, List.foldl, digVal_digitChar _ h1, digVal_digitChar _ h2,
    digVal_digitChar _ h3, digVal_digitChar _ h4, digVal_digitChar _ h5,
    digVal_digitChar _ h6]
  omega

/-- After the rendered hour, the matcher reads the rendered minute, second,
optional fraction and UTC suffix, and ends exactly at the end of input. -/
theorem parseTimeTail_pads (hh mi ss us : Nat) (hmi : mi < 100) (hss : ss < 100)
    (hus : us < 1000000) :
    parseTimeTail hh (':' :: (pad2 mi ++ ':' :: (pad2 ss
        ++ ((if us == 0 then [] else '.' :: pad6 us) ++ ['+', '0', '0', ':', '0', '0']))))
      = some { hour := hh, minute := some mi, second := some ss,
               second_fraction := if us == 0 then Option.none else some (us, 6) } := by
  have hcolon : isDigitC ':' = false := by decide
  have hfracplus : ∀ r : List Char, fracCands ('+' :: r) = [] := by
    intro r
    simp [fracCands, show (('+' : Char) == '.' || ('+' : Char) == ',') = false from by decide]
  by_cases h0 : us = 0
  · subst h0
    simp only [show ((0 : Nat) == 0) = true from rfl, if_pos, List.nil_append, ite_true]
    simp [parseTimeTail, colonDigits2, colonDigits12, secondCands, firstSome,
      digits2_pad2 mi hmi, digits2_not_digit ':' hcolon,
      digits1or2_pad2 ss hss, digits1or2_not_digit ':' hcolon, hfracplus, tzCands_utc]
  · have h0' : (us == 0) = false := by
      simp [h0]
    have htake : List.take 6 (pad6 us) = pad6 us := rfl
    have hdrop : List.drop 6 (pad6 us) = [] := rfl
    have hlen : (pad6 us).length = 6 := rfl
    have hrange : List.range 6 = [0, 1, 2, 3, 4, 5] := rfl
    simp only [h0', ite_false, if_neg, Bool.false_eq_true, not_false_iff]
    simp [parseTimeTail, colonDigits2, colonDigits12, secondCands, fracCands, firstSome,
      digits2_pad2 mi hmi, digits2_not_digit ':' hcolon,
      digits1or2_pad2 ss hss, digits1or2_not_digit ':' hcolon,
      takeDigits_pad6 us hus, digitsVal_pad6 us hus, htake, hdrop, hlen, hrange,
      tzCands_utc, show (('.' : Char) == '.' || ('.' : Char) == ',') = true from by decide]

/-- The matcher on a rendered date-time whose fraction-and-suffix tail is
already summarised by a `parseTimeTail` equation. -/
theorem isoMatch_pads (y mo da hh : Nat) (mi ss : Nat)
    (hy : y < 10000) (hmo : mo < 100) (hda : da < 100) (hhh : hh < 100)
    (fracPart : List Char) (fracGroup : Option (Nat × Nat))
    (hM1 : parseTimeTail hh (':' :: (pad2 mi ++ ':' :: (pad2 ss
        ++ (fracPart ++ ['+', '0', '0', ':', '0', '0']))))
      = some { hour := hh, minute := some mi, second := some ss,
               second_fraction := fracGroup }) :
    isoMatch (pad4 y ++ '-' :: (pad2 mo ++ '-' :: (pad2 da ++ 'T' :: (pad2 hh
        ++ ':' :: (pad2 mi ++ ':' :: (pad2 ss
        ++ (fracPart ++ ['+', '0', '0', ':', '0', '0'])))))))
      = some { year := y, monthdash := some mo, month := Option.none,
               daydash := some da, day := Option.none, hour := some hh,
               minute := some mi, second := some ss,
               second_fraction := fracGroup } := by
  have hPT : parseTime ('T' :: (pad2 hh ++ ':' :: (pad2 mi ++ ':' :: (pad2 ss
      ++ (fracPart ++ ['+', '0', '0', ':', '0', '0'])))))
      = some { hour := hh, minute := some mi, second := some ss,
               second_fraction := fracGroup } := by
    simp [parseTime, show (('T' : Char) == ' ' || ('T' : Char) == 'T') = true from by decide,
      digits2_pad2 hh hhh, hM1]
  have hPAD : parseAfterDay ('T' :: (pad2 hh ++ ':' :: (pad2 mi ++ ':' :: (pad2 ss
      ++ (fracPart ++ ['+', '0', '0', ':', '0', '0'])))))
      = some (some { hour := hh, minute := some mi, second := some ss,
                     second_fraction := fracGroup }) := by
    simp [parseAfterDay, hPT]
  have hPAM : parseAfterMonth ('-' :: (pad2 da ++ 'T' :: (pad2 hh ++ ':' :: (pad2 mi
      ++ ':' :: (pad2 ss ++ (fracPart ++ ['+', '0', '0', ':', '0', '0']))))))
      = some (some ((true, da),
          some { hour := hh, minute := some mi, second := some ss,
                 second_fraction := fracGroup })) := by
    simp [parseAfterMonth, dayCands, digits1or2_pad2 da hda,
      digits2_not_digit '-' (by decide), firstSome, hPAD]
  have hPAY : parseAfterYear ('-' :: (pad2 mo ++ '-' :: (pad2 da ++ 'T' :: (pad2 hh
      ++ ':' :: (pad2 mi ++ ':' :: (pad2 ss
      ++ (fracPart ++ ['+', '0', '0', ':', '0', '0'])))))))
      = some (some ((true, mo), some ((true, da),
          some { hour := hh, minute := some mi, second := some ss,
                 second_fraction := fracGroup }))) := by
    simp [parseAfterYear, monthCands, digits1or2_pad2 mo hmo,
      digits2_not_digit '-' (by decide), firstSome, hPAM]
  simp only [isoMatch]
  rw [digits4_pad4 y hy]
  dsimp only
  rw [hPAY]
  simp [IsoGroups.base]

/-- The full rendered ISO form matches, filling exactly the dashed date
groups, the time groups and the optional fraction. -/
theorem isoMatch_isoformat (y mo da hh mi ss us : Nat)
    (hy : y < 10000) (hmo : mo < 100) (hda : da < 100) (hhh : hh < 100)
    (hmi : mi < 100) (hss : ss < 100) (hus : us < 1000000) :
    isoMatch (isoformatChars
        { year := y, month := mo, day := da, hour := hh,
          minute := mi, second := ss, microsecond := us, tz := some 0 })
      = some { year := y, monthdash := some mo, month := Option.none,
               daydash := some da, day := Option.none, hour := some hh,
               minute := some mi, second := some ss,
               second_fraction := if us == 0 then Option.none else some (us, 6) } := by
  have htzs : tzSuffix (some 0) = ['+', '0', '0', ':', '0', '0'] := by decide
  have hM1 := parseTimeTail_pads hh mi ss us hmi hss hus
  dsimp only [isoformatChars]
  rw [htzs]
  by_cases h0 : us = 0
  · subst h0
    simp only [show ((0 : Nat) == 0) = true from rfl, eq_self_iff_true, if_true] at hM1 ⊢
    exact isoMatch_pads y mo da hh mi ss hy hmo hda hhh [] Option.none hM1
  · have h0' : (us == 0) = false := by simp [h0]
    simp only [h0', Bool.false_eq_true, if_false] at hM1 ⊢
    exact isoMatch_pads y mo da hh mi ss hy hmo hda hhh ('.' :: pad6 us) (some (us, 6)) hM1

/-- Any successful `DateTime.parse` result passed the constructor's range
checks and is tagged UTC (`tzinfo=tz` with `tz` hardcoded to UTC). -/
theorem parse_ok_shape (s : String) (d : DateTimeD) (h : DateTime.parse s = .ok d) :
    validDT d = true ∧ d.tz = some 0 := by
  unfold DateTime.parse at h
  cases hm : isoMatch s.toList with
  | none => rw [hm] at h; exact Except.noConfusion h
  | some g =>
    rw [hm] at h
    dsimp only at h
    split at h
    · next hval =>
      injection h with h'
      subst h'
      exact ⟨hval, rfl⟩
    · exact Except.noConfusion h

/-- Every month length is at most 31. -/
theorem daysInMonth_le (y m : Nat) : daysInMonth y m ≤ 31 := by
  unfold daysInMonth
  split
  · split <;> decide
  · split <;> decide

/-- Re-parsing the rendered ISO form of any valid UTC-tagged datetime gives
back exactly that datetime. -/
theorem parse_isoformat (d : DateTimeD) (hv : validDT d = true)
    (htz : d.tz = some 0) : DateTime.parse (isoformat d) = .ok d := by
  obtain ⟨y, mo, da, hh, mi, ss, us, tz⟩ := d
  have hv0 := hv
  simp only [validDT, Bool.and_eq_true, decide_eq_true_eq] at hv
  obtain ⟨⟨⟨⟨⟨⟨⟨⟨⟨hy1, hy2⟩, hmo1⟩, hmo2⟩, hda1⟩, hda2⟩, hhh⟩, hmi⟩, hss⟩, hus⟩ := hv
  have hda100 : da < 100 := by
    have := daysInMonth_le y mo
    omega
  dsimp only at htz hv0 ⊢
  subst htz
  unfold DateTime.parse
  rw [show (isoformat
        { year := y, month := mo, day := da, hour := hh, minute := mi,
          second := ss, microsecond := us, tz := some 0 }).toList
      = isoformatChars
        { year := y, month := mo, day := da, hour := hh, minute := mi,
          second := ss, microsecond := us, tz := some 0 } from rfl]
  by_cases h0 : us = 0
  · subst h0
    rw [isoMatch_isoformat y mo da hh mi ss 0 (by omega) (by omega) hda100
      (by omega) (by omega) (by omega) (by omega)]
    simp [hv0]
  · rw [isoMatch_isoformat y mo da hh mi ss us (by omega) (by omega) hda100
      (by omega) (by omega) (by omega) (by omega)]
    have h0' : (us == 0) = false := by simp [h0]
    have hfrac : us * 1000000 / 10 ^ 6 = us := by
      rw [show (10 : Nat) ^ 6 = 1000000 from by norm_num]
      omega
    rw [h0']
    simp [hfrac, hv0]


/-- C6 counterexample: a DateTime value produced by deserializing the integer
epoch timestamp `0` is a naive local-time datetime; serializing it renders no
offset, and re-deserializing yields a UTC-aware datetime, which Python `==`
deems unequal to the naive original — so `deserialize(serialize(x)) == x`
fails for DateTime values produced from an integer timestamp. -/
theorem C6_counterexample :
    DateTime.deserialize 0 (.int 0)
      = .ok (.dt { year := 1970, month := 1, day := 1, hour := 0, minute := 0,
                   second := 0, microsecond := 0, tz := Option.none })
    ∧ DateTime.serialize (.dt { year := 1970, month := 1, day := 1, hour := 0, minute := 0,
                                second := 0, microsecond := 0, tz := Option.none })
      = .ok (.str "1970-01-01T00:00:00")
    ∧ DateTime.deserialize 0 (.str "1970-01-01T00:00:00")
      = .ok (.dt { year := 1970, month := 1, day := 1, hour := 0, minute := 0,
                   second := 0, microsecond := 0, tz := some 0 })
    ∧ pyEqb (.dt { year := 1970, month := 1, day := 1, hour := 0, minute := 0,
                   second := 0, microsecond := 0, tz := some 0 })
            (.dt { year := 1970, month := 1, day := 1, hour := 0, minute := 0,
                   second := 0, microsecond := 0, tz := Option.none }) = false
    ∧ ({ year := 1970, month := 1, day := 1, hour := 0, minute := 0,
         second := 0, microsecond := 0, tz := some 0 } : DateTimeD)
        ≠ { year := 1970, month := 1, day := 1, hour := 0, minute := 0,
            second := 0, microsecond := 0, tz := Option.none } := by
  exact ⟨rfl, rfl, rfl, rfl, by decide⟩

/-- C6 amended: `deserialize(serialize(x)) == x` holds for any value produced
by `Any`, `Integer`, `Boolean` or `String` deserialization (their serialize
is the identity), and for every DateTime value produced by deserializing an
ISO-8601 string; it fails for DateTime values produced from an integer epoch
timestamp, which are naive local-time values whose re-parse comes back
UTC-aware (and for nested-model fields, whose deserialize builds a fresh
instance Python compares by identity). -/
theorem C6_roundtrip_amended :
    (∀ (v x : PyVal), Integer.deserialize v = .ok x →
        Integer.deserialize (Integer.serialize x) = .ok x)
    ∧ (∀ (v x : PyVal), Boolean.deserialize v = .ok x →
        Boolean.deserialize (Field.serialize x) = .ok x)
    ∧ (∀ (convert : Bool) (v x : PyVal), StringField.deserialize convert v = .ok x →
        StringField.deserialize convert (Field.serialize x) = .ok x)
    ∧ (∀ x : PyVal, Any.deserialize (Any.serialize x) = .ok x)
    ∧ (∀ (s : String) (d : DateTimeD) (off : Int), DateTime.parse s = .ok d →
        DateTime.serialize (.dt d) = .ok (.str (isoformat d))
        ∧ DateTime.deserialize off (.str (isoformat d)) = .ok (.dt d)) := by
  refine ⟨?_, ?_, ?_, ?_, ?_⟩
  · intro v x h
    unfold Integer.deserialize at h ⊢
    cases hc : pyIntCoerce v with
    | none => rw [hc] at h; exact Except.noConfusion h
    | some n =>
      rw [hc] at h
      injection h with h'
      subst h'
      rfl
  · intro v x h
    unfold Boolean.deserialize at h ⊢
    cases v with
    | bool b =>
      injection h with h'
      subst h'
      rfl
    | none => exact Except.noConfusion h
    | int n => exact Except.noConfusion h
    | str s => exact Except.noConfusion h
    | dt d => exact Except.noConfusion h
    | list l => exact Except.noConfusion h
    | dict e => exact Except.noConfusion h
  · intro convert v x h
    unfold StringField.deserialize at h ⊢
    cases v with
    | str s =>
      injection h with h'
      subst h'
      rfl
    | none => cases convert with
      | true => injection h with h'; subst h'; rfl
      | false => exact Except.noConfusion h
    | int n => cases convert with
      | true => injection h with h'; subst h'; rfl
      | false => exact Except.noConfusion h
    | bool b => cases convert with
      | true => injection h with h'; subst h'; rfl
      | false => exact Except.noConfusion h
    | dt d => cases convert with
      | true => injection h with h'; subst h'; rfl
      | false => exact Except.noConfusion h
    | list l => cases convert with
      | true => injection h with h'; subst h'; rfl
      | false => exact Except.noConfusion h
    | dict e => cases convert with
      | true => injection h with h'; subst h'; rfl
      | false => exact Except.noConfusion h
  · intro x
    rfl
  · intro s d off h
    obtain ⟨hval, htz⟩ := parse_ok_shape s d h
    refine ⟨rfl, ?_⟩
    unfold DateTime.deserialize
    dsimp only
    rw [parse_isoformat d hval htz]
    rfl

/-- C6 witness: the round-trip clauses instantiated — an `Integer` from the
text `"5"`, a `Boolean`, a converted `String`, and a DateTime parsed from
`"2021-07-04"`. -/
theorem C6_witness :
    Integer.deserialize (Integer.serialize (.int 5)) = .ok (.int 5)
    ∧ Boolean.deserialize (Field.serialize (.bool true)) = .ok (.bool true)
    ∧ StringField.deserialize true (Field.serialize (.str "17")) = .ok (.str "17")
    ∧ DateTime.deserialize 0
        (.str (isoformat { year := 2021, month := 7, day := 4, hour := 0, minute := 0,
                           second := 0, microsecond := 0, tz := some 0 }))
      = .ok (.dt { year := 2021, month := 7, day := 4, hour := 0, minute := 0,
                   second := 0, microsecond := 0, tz := some 0 }) :=
  ⟨C6_roundtrip_amended.1 (.str "5") (.int 5) rfl,
   C6_roundtrip_amended.2.1 (.bool true) (.bool true) rfl,
   C6_roundtrip_amended.2.2.1 true (.int 17) (.str "17") rfl,
   (C6_roundtrip_amended.2.2.2.2 "2021-07-04"
     { year := 2021, month := 7, day := 4, hour := 0, minute := 0,
       second := 0, microsecond := 0, tz := some 0 } 0 rfl).2⟩

end Modus
